import Mathlib

/-!
# Verification of the taskw scan → validate → generate pipeline

A shallow embedding of the core of the taskw code generator: the
ignore-pattern file filter, the AST-based extractor, the validator and the
two generators (routes and dependencies).  Go strings are modelled as
`List Char` in the helper layer and as `String` at the API level; Go `int`
is modelled as `Int`.  Each embedded function mirrors one Go function of
the repository and keeps its name.
-/

namespace Taskw

/-! ### Go string primitives, modelled over lists of characters -/

/-- ASCII whitespace accepted by Go `unicode.IsSpace` (the sources only ever
meet ASCII input). -/
def goSpaceChars : List Char := [' ', '\t', '\n', '\x0b', '\x0c', '\r']

def isGoSpace (c : Char) : Bool := goSpaceChars.contains c

/-- Whitespace class of the RE2 escape used in the route regexes. -/
def reSpaceChars : List Char := [' ', '\t', '\n', '\x0c', '\r']

def isReSpace (c : Char) : Bool := reSpaceChars.contains c

def trimLeftIf (p : Char → Bool) (s : List Char) : List Char := s.dropWhile p

def trimRightIf (p : Char → Bool) (s : List Char) : List Char :=
  (s.reverse.dropWhile p).reverse

def trimIf (p : Char → Bool) (s : List Char) : List Char :=
  trimRightIf p (trimLeftIf p s)

/-- Go `strings.TrimSpace`. -/
def goTrimSpace (s : List Char) : List Char := trimIf isGoSpace s

/-- Go `strings.Trim` with a cutset of characters. -/
def goTrim (s cutset : List Char) : List Char := trimIf (cutset.contains ·) s

/-- Go `strings.HasPrefix`. -/
def goHasPrefix (s pre : List Char) : Bool := pre.isPrefixOf s

/-- Go `strings.HasSuffix`. -/
def goHasSuffix (s suf : List Char) : Bool := suf.isSuffixOf s

/-- Go `strings.TrimPrefix`. -/
def goTrimPrefix (s pre : List Char) : List Char :=
  if goHasPrefix s pre then s.drop pre.length else s

/-- Go `strings.TrimSuffix`. -/
def goTrimSuffix (s suf : List Char) : List Char :=
  if goHasSuffix s suf then s.take (s.length - suf.length) else s

/-- Go `strings.Split` with a one-character separator. -/
def splitOnChar (sep : Char) : List Char → List (List Char)
  | [] => [[]]
  | c :: cs =>
    if c = sep then [] :: splitOnChar sep cs
    else
      match splitOnChar sep cs with
      | [] => [[c]]
      | p :: ps => (c :: p) :: ps

/-- Index of the first occurrence of `sub` in `s`; Go `strings.Index`
(returns `none` instead of `-1`). -/
def indexOfSub (s sub : List Char) : Option Nat :=
  if sub.isPrefixOf s then some 0
  else
    match s with
    | [] => none
    | _ :: t => (indexOfSub t sub).map (· + 1)

/-- Go `strings.Contains`. -/
def containsSub (s sub : List Char) : Bool := (indexOfSub s sub).isSome

/-- Go `strings.ContainsAny`. -/
def containsAny (s cutset : List Char) : Bool := s.any (cutset.contains ·)

/-- Loop of Go `strings.Split` for a multi-character separator.  The fuel
argument is only a termination device: every recursive call removes at
least one character (the separator is non-empty), and once the string is
empty the `indexOfSub` branch and the out-of-fuel branch coincide, so fuel
`s.length` computes exactly `strings.Split`. -/
def splitOnSubFuel (sep : List Char) : Nat → List Char → List (List Char)
  | 0, s => [s]
  | fuel + 1, s =>
    match indexOfSub s sep with
    | none => [s]
    | some i => s.take i :: splitOnSubFuel sep fuel (s.drop (i + sep.length))

/-- Go `strings.Split` for a non-empty multi-character separator. -/
def splitOnSub (s sep : List Char) : List (List Char) :=
  if sep = [] then [s] else splitOnSubFuel sep s.length s

/-- Go `strings.ReplaceAll s old new` for a non-empty `old`. -/
def replaceAllSub (s old new : List Char) : List Char :=
  List.intercalate new (splitOnSub s old)

/-- Go `strings.ToUpper` (ASCII). -/
def goToUpper (s : List Char) : List Char := s.map Char.toUpper

/-- Go `strings.ToLower` (ASCII). -/
def goToLower (s : List Char) : List Char := s.map Char.toLower

/-! ### Ignore-pattern file filter (`FileFilter`, scanner package)

Embedding of `matchPattern` and its helpers, the glob matcher applied to
`.taskwignore`-style patterns. -/

/-- Inner loop of `wildcardMatch`: walks the `*`-separated parts keeping the
running index into `str`; returns `none` where the Go loop returns `false`.
`i` is the part counter used for the must-match-at-beginning check. -/
def wildcardLoop (str : List Char) : List (List Char) → Nat → Nat → Option Nat
  | [], _, idx => some idx
  | p :: rest, i, idx =>
    if p = [] then wildcardLoop str rest (i + 1) idx
    else
      match indexOfSub (str.drop idx) p with
      | none => none
      | some pos =>
        if i = 0 ∧ pos ≠ 0 then none
        else wildcardLoop str rest (i + 1) (idx + pos + p.length)

/-- `FileFilter.wildcardMatch`: simple `*` wildcard matching inside one
path segment. -/
def wildcardMatch (pattern str : List Char) : Bool :=
  let parts := splitOnChar '*' pattern
  match wildcardLoop str parts 0 0 with
  | none => false
  | some _ =>
    match parts.getLast? with
    | some lastPart => if lastPart ≠ [] then goHasSuffix str lastPart else true
    | none => true

/-- `FileFilter.matchSinglePart`. -/
def matchSinglePart (pattern pathPart : List Char) : Bool :=
  if pattern = ['*'] then true
  else if ¬ pattern.contains '*' then pattern = pathPart
  else wildcardMatch pattern pathPart

/-- Loop of `FileFilter.matchParts`. -/
def matchPartsLoop : List (List Char) → List (List Char) → Bool
  | [], _ => true
  | _ :: _, [] => false
  | p :: ps, q :: qs => matchSinglePart p q && matchPartsLoop ps qs

/-- `FileFilter.matchParts`. -/
def matchParts (patternParts pathParts : List (List Char)) : Bool :=
  if patternParts.length > pathParts.length then false
  else matchPartsLoop patternParts pathParts

/-- `FileFilter.matchSingleStarPattern`. -/
def matchSingleStarPattern (pattern path : List Char) : Bool :=
  matchParts (splitOnChar '/' pattern) (splitOnChar '/' path)

/-- `FileFilter.matchDoubleStarPattern`. -/
def matchDoubleStarPattern (pattern path : List Char) : Bool :=
  match splitOnSub pattern ['*', '*'] with
  | [p0, p1] =>
    let prefixPart := goTrimSuffix p0 ['/']
    let suffixPart := goTrimPrefix p1 ['/']
    if prefixPart ≠ [] ∧ ¬ goHasPrefix path prefixPart then false
    else if suffixPart ≠ [] then
      if suffixPart.contains '*' then
        let pathWithoutPrefix :=
          if prefixPart ≠ [] then goTrimPrefix path (prefixPart ++ ['/']) else path
        matchSingleStarPattern suffixPart pathWithoutPrefix
      else goHasSuffix path suffixPart
    else true
  | _ => containsSub path (replaceAllSub pattern ['*', '*'] [])

/-- `FileFilter.matchPattern`: entry point of the glob matcher. -/
def matchPattern (pattern path : List Char) : Bool :=
  if containsSub pattern ['*', '*'] then matchDoubleStarPattern pattern path
  else if pattern.contains '*' then matchSingleStarPattern pattern path
  else if pattern = path then true
  else if goHasSuffix pattern ['/'] then
    goHasPrefix path pattern || goHasPrefix (path ++ ['/']) pattern
  else goHasPrefix path (pattern ++ ['/'])

/-- String-level wrapper for `matchPattern`. -/
def matchPatternS (pattern path : String) : Bool :=
  matchPattern pattern.data path.data

end Taskw

namespace Taskw

/-! ### Scanner data model (scanner package types)

`Type` is a reserved word in Lean, so the `Type` field of the Go structs is
called `Kind` here (the spec's name for it).  The `Line`, `Handler` and
`Route` fields of the validation records only carry diagnostic context and
are not modelled. -/

structure HandlerFunction where
  FunctionName : String
  Package : String
  FullPackagePath : String
  HandlerName : String
  ImplementerName : String
  ReturnType : String
  FilePath : String
  IsInterfaceBased : Bool
deriving DecidableEq

structure RouteMapping where
  MethodName : String
  Path : String
  HTTPMethod : String
  HandlerRef : String
  Package : String
  FullPackagePath : String
deriving DecidableEq

structure ProviderFunction where
  FunctionName : String
  Package : String
  ReturnType : String
  Parameters : List String
  FilePath : String
deriving DecidableEq

structure ScanError where
  FilePath : String
  Message : String
  Kind : String
deriving DecidableEq

structure HandlerInterface where
  InterfaceName : String
  Package : String
  Methods : List String
  FilePath : String
deriving DecidableEq

structure HandlerImplementation where
  StructName : String
  Package : String
  InterfaceName : String
  Methods : List String
  FilePath : String
deriving DecidableEq

structure ScanResult where
  Handlers : List HandlerFunction
  Routes : List RouteMapping
  Providers : List ProviderFunction
  Interfaces : List HandlerInterface
  Implementations : List HandlerImplementation
  Errors : List ScanError
deriving DecidableEq

structure ValidationError where
  Kind : String
  Message : String
deriving DecidableEq

structure ValidationWarning where
  Kind : String
  Message : String
deriving DecidableEq

end Taskw

namespace Taskw

/-! ### Validator (`validation.go`)

`validateRoutePattern` returns the error message (`none` = valid);
`validateRoutes` and `validateHandlerRouteMatching` return the emitted
error/warning lists.  Go iterates its maps in unspecified order; here the
groups are visited in first-occurrence order of their keys, which fixes an
order without changing the multiset of emitted records. -/

/-- The allow-list hard-coded in `validateRoutePattern`. -/
def validatorMethods : List String :=
  ["GET", "POST", "PUT", "DELETE", "PATCH", "HEAD", "OPTIONS"]

/-- A static path segment containing whitespace (the per-segment test of
`validateRoutePattern`'s loop). -/
def badStaticSegment (seg : List Char) : Bool :=
  ¬ seg = [] ∧ ¬ (goHasPrefix seg [':'] = true ∨ goHasPrefix seg ['*'] = true) ∧
    containsAny seg [' ', '\t', '\n', '\r'] = true

/-- `Validator.validateRoutePattern`. -/
def validateRoutePattern (route : RouteMapping) : Option String :=
  if ¬ goHasPrefix route.Path.data ['/'] = true then
    some ("route path must start with '/': " ++ route.Path)
  else if (splitOnChar '/' route.Path.data).any badStaticSegment then
    some ("route path contains whitespace: " ++ route.Path)
  else if ¬ route.HTTPMethod ∈ validatorMethods then
    some ("invalid HTTP method: " ++ route.HTTPMethod)
  else none

/-- The `fmt.Sprintf("%s %s", route.HTTPMethod, route.Path)` grouping key of
`validateRoutes`. -/
def routeKeyString (r : RouteMapping) : String := r.HTTPMethod ++ " " ++ r.Path

/-- The duplicate-route pass of `Validator.validateRoutes`: one error per
member of every key group of size above one. -/
def duplicateRouteErrors (routes : List RouteMapping) : List ValidationError :=
  ((routes.map routeKeyString).dedup).flatMap (fun k =>
    let grp := routes.filter (fun r => routeKeyString r = k)
    if 1 < grp.length then
      grp.map (fun _ => ⟨"duplicate_route", "Duplicate route found: " ++ k⟩)
    else [])

/-- The pattern-validation pass of `Validator.validateRoutes`. -/
def invalidPatternErrors (routes : List RouteMapping) : List ValidationError :=
  routes.filterMap (fun r =>
    (validateRoutePattern r).map (fun msg => ⟨"invalid_route_pattern", msg⟩))

/-- `Validator.validateRoutes`: both passes, in program order. -/
def validateRoutes (routes : List RouteMapping) : List ValidationError :=
  duplicateRouteErrors routes ++ invalidPatternErrors routes

/-- Size of the `(HTTPMethod, Path)` pair group of claim C6 (the grouping
the claim asserts, as opposed to the string key the code uses). -/
def pairGroupSize (routes : List RouteMapping) (m p : String) : Nat :=
  (routes.filter (fun r => r.HTTPMethod = m ∧ r.Path = p)).length

/-- The `package.functionName` key of the handler map built by
`validateHandlerRouteMatching`. -/
def handlerKeyOf (h : HandlerFunction) : String := h.Package ++ "." ++ h.FunctionName

/-- The `package.methodName` key of the route map built by
`validateHandlerRouteMatching`. -/
def routeRefKeyOf (r : RouteMapping) : String := r.Package ++ "." ++ r.MethodName

/-- Warning message of `validateHandlerRouteMatching` for an orphan
handler key. -/
def handlerWithoutRouteMsg (k : String) : String :=
  "Handler function " ++ k ++ " found but no @Router annotation"

/-- Error message of `validateHandlerRouteMatching` for an orphan route
key. -/
def routeWithoutHandlerMsg (k : String) : String :=
  "@Router annotation found for " ++ k ++ " but no corresponding handler function"

/-- Warning pass of `Validator.validateHandlerRouteMatching`: one warning
per distinct handler key absent from the route map. -/
def handlerWithoutRouteWarnings (handlers : List HandlerFunction)
    (routes : List RouteMapping) : List ValidationWarning :=
  ((handlers.map handlerKeyOf).dedup).filterMap (fun k =>
    if k ∈ routes.map routeRefKeyOf then none
    else some ⟨"handler_without_route", handlerWithoutRouteMsg k⟩)

/-- Error pass of `Validator.validateHandlerRouteMatching`: one error per
distinct route key absent from the handler map. -/
def routeWithoutHandlerErrors (handlers : List HandlerFunction)
    (routes : List RouteMapping) : List ValidationError :=
  ((routes.map routeRefKeyOf).dedup).filterMap (fun k =>
    if k ∈ handlers.map handlerKeyOf then none
    else some ⟨"route_without_handler", routeWithoutHandlerMsg k⟩)

/-- `Validator.validateHandlerRouteMatching`: the emitted errors and
warnings. -/
def validateHandlerRouteMatching (handlers : List HandlerFunction)
    (routes : List RouteMapping) : List ValidationError × List ValidationWarning :=
  (routeWithoutHandlerErrors handlers routes,
   handlerWithoutRouteWarnings handlers routes)

end Taskw


namespace Taskw

/-! ### Go-style string comparison

Go compares strings byte-wise lexicographically; on the ASCII data the
tool meets this is character-wise comparison.  A self-contained structural
definition keeps every sort below kernel-computable. -/

/-- Lexicographic order on character lists (Go string `<`). -/
def charListLt : List Char → List Char → Bool
  | [], [] => false
  | [], _ :: _ => true
  | _ :: _, [] => false
  | a :: as, b :: bs => if a < b then true else if b < a then false else charListLt as bs

/-- Go string comparison `a < b`. -/
def strLtB (a b : String) : Bool := charListLt a.data b.data

/-- The sortedness relation left behind by a Go sort whose `less` compares
the `key` strings: element `a` may precede `b` iff `¬ less(b, a)`. -/
def keyLE {α : Type} (key : α → String) (a b : α) : Prop :=
  strLtB (key b) (key a) = false

instance {α : Type} (key : α → String) : DecidableRel (keyLE key) :=
  fun a b => instDecidableEqBool (strLtB (key b) (key a)) false

/-- First hit of `f` over a list (Go-style short-circuit loops). -/
def firstSome {α β : Type} (f : α → Option β) : List α → Option β
  | [] => none
  | a :: t =>
    match f a with
    | some b => some b
    | none => firstSome f t

/-! ### Route generator (`routes.go`, second revision — the one with the
specificity sort and handler metadata) -/

/-- `HandlerInfo` of the route generator. -/
structure HandlerInfo where
  FieldName : String
  ParamName : String
  TypeName : String
  Package : String
deriving DecidableEq

/-- `RouteGenerator.convertPathForFiber`: rewrite every `{` to `:` and
delete every `}`. -/
def convertPathForFiber (path : String) : String :=
  ⟨(path.data.map (fun c => if c = '{' then ':' else c)).filter (fun c => ¬ c = '}')⟩

/-- `RouteGenerator.calculateSpecificityScore`. -/
def calculateSpecificityScore (path : String) : Int :=
  let segments := splitOnChar '/' (goTrim path.data ['/'])
  segments.foldl
    (fun score seg => if goHasPrefix seg [':'] = true then score - 100 else score + 100)
    ((segments.length : Int) * 1000)

/-- The specificity formula in the words of the claim: segments of the
slash-trimmed path, 1000 per segment, +100 per static segment, -100 per
parameter segment. -/
def specificityScoreSpec (path : String) : Int :=
  let segments := splitOnChar '/' (goTrim path.data ['/'])
  (segments.length : Int) * 1000
    + 100 * ((segments.filter (fun seg => ¬ goHasPrefix seg [':'] = true)).length : Int)
    - 100 * ((segments.filter (fun seg => goHasPrefix seg [':'] = true)).length : Int)

/-- The `less` closure of the final `sort.Slice` of
`generateRouteFileContent`: score descending, then method, then path. -/
def routeLess (a b : RouteMapping) : Bool :=
  if ¬ calculateSpecificityScore a.Path = calculateSpecificityScore b.Path then
    calculateSpecificityScore a.Path > calculateSpecificityScore b.Path
  else if ¬ a.HTTPMethod = b.HTTPMethod then strLtB a.HTTPMethod b.HTTPMethod
  else strLtB a.Path b.Path

/-- Sortedness relation of the final route sort (`¬ less(b, a)`). -/
def routeLE (a b : RouteMapping) : Prop := routeLess b a = false

instance : DecidableRel routeLE :=
  fun a b => instDecidableEqBool (routeLess b a) false

/-- The strict key order the route comparator realizes. -/
def routeKeyLt (a b : RouteMapping) : Prop :=
  calculateSpecificityScore a.Path > calculateSpecificityScore b.Path ∨
    (calculateSpecificityScore a.Path = calculateSpecificityScore b.Path ∧
      (strLtB a.HTTPMethod b.HTTPMethod = true ∨
        (a.HTTPMethod = b.HTTPMethod ∧ strLtB a.Path b.Path = true)))

/-- `RouteGenerator.organizeRoutesByPackage` converts each path for Fiber
before grouping; the per-package buckets keep arrival order. -/
def organizeRoutesByPackage (routes : List RouteMapping) : List RouteMapping :=
  routes.map (fun r =>
    ⟨r.MethodName, convertPathForFiber r.Path, r.HTTPMethod, r.HandlerRef,
      r.Package, r.FullPackagePath⟩)

/-- The sorted distinct package names of `generateRouteFileContent`
(map keys collected and passed through `sort.Strings`). -/
def sortedPackageNames (routes : List RouteMapping) : List String :=
  List.insertionSort (keyLE id) ((routes.map (fun r => r.Package)).dedup)

/-- The flattening step of `generateRouteFileContent`: converted routes,
grouped by package, concatenated in sorted package order. -/
def flattenRoutesByPackage (routes : List RouteMapping) : List RouteMapping :=
  let conv := organizeRoutesByPackage routes
  (sortedPackageNames conv).flatMap (fun pkg => conv.filter (fun r => r.Package = pkg))

/-- The fully sorted route list of `generateRouteFileContent` — the order
of the emitted registration statements. -/
def orderedRoutes (routes : List RouteMapping) : List RouteMapping :=
  List.insertionSort routeLE (flattenRoutesByPackage routes)

/-- `RouteGenerator.getHandlerTypeName`. -/
def getHandlerTypeName (pkg : String) : String := "*" ++ pkg ++ ".Handler"

/-- The accumulation loop of `RouteGenerator.extractHandlerInfo`: the first
route carrying a two-part handler reference wins for its field name. -/
def extractHandlerInfoLoop : List HandlerInfo → List RouteMapping → List HandlerInfo
  | acc, [] => acc
  | acc, r :: rest =>
    match splitOnChar '.' r.HandlerRef.data with
    | [h, _] =>
      let hs : String := ⟨h⟩
      if acc.any (fun info => info.FieldName = hs) then extractHandlerInfoLoop acc rest
      else extractHandlerInfoLoop
        (acc ++ [⟨hs, hs, getHandlerTypeName r.Package, r.Package⟩]) rest
    | _ => extractHandlerInfoLoop acc rest

/-- `RouteGenerator.extractHandlerInfo`: distinct handler fields, sorted by
field name. -/
def extractHandlerInfo (routes : List RouteMapping) : List HandlerInfo :=
  List.insertionSort (keyLE HandlerInfo.FieldName) (extractHandlerInfoLoop [] routes)

/-- `RouteGenerator.deriveHandlerImportPath`: the module plus the
hard-coded `internal/` convention (the generator always carries a config,
so only the module string matters). -/
def deriveHandlerImportPath (module pkg : String) : String :=
  if ¬ module = "" then module ++ "/internal/" ++ pkg else "internal/" ++ pkg

/-- The `fmt.Sprintf("\"%s\"", path)` quoting of import paths. -/
def quoteImport (path : String) : String := "\"" ++ path ++ "\""

/-- `RouteGenerator.generateImports`: the fiber import followed by the
sorted, de-duplicated handler package imports. -/
def generateRouteImports (module : String) (handlerInfo : List HandlerInfo) : List String :=
  let packageImports := (handlerInfo.filterMap (fun h =>
    let importPath := deriveHandlerImportPath module h.Package
    if ¬ importPath = "" then some (quoteImport importPath) else none)).dedup
  "\"github.com/gofiber/fiber/v2\"" :: List.insertionSort (keyLE id) packageImports

/-- `RouteGenerator.getRouterMethod`. -/
def getRouterMethod (method : String) : String :=
  let m : String := ⟨goToUpper method.data⟩
  if m = "GET" then "Get"
  else if m = "POST" then "Post"
  else if m = "PUT" then "Put"
  else if m = "DELETE" then "Delete"
  else if m = "PATCH" then "Patch"
  else if m = "HEAD" then "Head"
  else if m = "OPTIONS" then "Options"
  else "All"

/-- `RouteGenerator.getHandlerRef` (router revision: prefix `ar.`); the Go
function also receives the package but ignores it. -/
def getHandlerRef (handlerRef : String) : String :=
  match splitOnChar '.' handlerRef.data with
  | [h, m] => "ar." ++ (⟨h⟩ : String) ++ "." ++ (⟨m⟩ : String)
  | _ => handlerRef

/-- Modelled from the spec: the embedded template `templates/routes.tmpl`
is not under the sources; per spec 4.5 the generated file carries the
do-not-edit marker, the import block, the per-handler declarations and one
registration statement per route, in the given orders. -/
def renderRoutesFile (imports : List String) (handlers : List HandlerInfo)
    (routes : List RouteMapping) : String :=
  "// Code generated by taskw. DO NOT EDIT.\n\npackage api\n\nimport (\n"
    ++ String.join (imports.map (fun i => "\t" ++ i ++ "\n"))
    ++ ")\n\ntype ApiRouter struct \x7b\n"
    ++ String.join (handlers.map (fun h => "\t" ++ h.FieldName ++ " " ++ h.TypeName ++ "\n"))
    ++ "\x7d\n\nfunc (ar *ApiRouter) RegisterRoutes(app *fiber.App) \x7b\n"
    ++ String.join (routes.map (fun r =>
        "\tapp." ++ getRouterMethod r.HTTPMethod ++ "(\"" ++ r.Path ++ "\", "
          ++ getHandlerRef r.HandlerRef ++ ")\n"))
    ++ "\x7d\n"

/-- `generateRouteFileContent` down to the emitted text. -/
def generateRouteFileContent (module : String) (routes : List RouteMapping) : String :=
  let handlerInfo := extractHandlerInfo routes
  renderRoutesFile (generateRouteImports module handlerInfo) handlerInfo
    (orderedRoutes routes)

/-! ### Dependency generator (`dependencies.go`) -/

/-- Index of the last occurrence of `c` in `s`. -/
def lastIndexOfChar (c : Char) (s : List Char) : Option Nat :=
  match s.reverse.findIdx? (fun x => x = c) with
  | none => none
  | some i => some (s.length - 1 - i)

/-- Lexical path cleaning: Go `path/filepath.Clean` for slash paths. -/
def cleanPath (s : List Char) : List Char :=
  if s = [] then ['.']
  else
    let rooted := goHasPrefix s ['/']
    let comps := (splitOnChar '/' s).filter (fun comp => ¬ comp = [] ∧ ¬ comp = ['.'])
    let outComps := comps.foldl (fun acc comp =>
      if comp = ['.', '.'] then
        if rooted = true then acc.dropLast
        else if ¬ acc = [] ∧ ¬ acc.getLast? = some ['.', '.'] then acc.dropLast
        else acc ++ [comp]
      else acc ++ [comp]) []
    let joined := List.intercalate ['/'] outComps
    if rooted then (if joined = [] then ['/'] else '/' :: joined)
    else (if joined = [] then ['.'] else joined)

/-- Go `filepath.Dir`: everything before the final slash, cleaned; `"."`
when there is no slash. -/
def goPathDir (s : String) : String :=
  match lastIndexOfChar '/' s.data with
  | none => "."
  | some i => ⟨cleanPath (s.data.take (i + 1))⟩

/-- Go `filepath.Base`. -/
def goPathBase (s : String) : String :=
  if s.data = [] then "."
  else
    let t := trimRightIf (fun c => c = '/') s.data
    if t = [] then "/"
    else
      match lastIndexOfChar '/' t with
      | none => ⟨t⟩
      | some i => ⟨t.drop (i + 1)⟩

/-- `DependencyGenerator.deriveImportPath`: with the working directory as
project root and a relative provider file path, the Getwd/Abs/Rel steps of
the Go code collapse to the lexical directory of the file joined to the
project module. -/
def deriveImportPath (module filePath : String) : String :=
  let relDir := goPathDir filePath
  if relDir = "." then module else module ++ "/" ++ relDir

/-- `DependencyGenerator.getOutputPackageName`. -/
def getOutputPackageName (outputDir : String) : String := goPathBase outputDir

/-- `DependencyGenerator.getProviderRef`. -/
def getProviderRef (outputPackage pkg functionName : String) : String :=
  if pkg = outputPackage then functionName else pkg ++ "." ++ functionName

/-- `DependencyGenerator.generateImports`: the wire import followed by the
sorted, de-duplicated provider package imports. -/
def generateDepImports (module outputDir : String)
    (providers : List ProviderFunction) : List String :=
  let outputPackage := getOutputPackageName outputDir
  let packageImports := (providers.filterMap (fun pr =>
    if ¬ pr.Package = "" ∧ ¬ pr.Package = outputPackage then
      let importPath := deriveImportPath module pr.FilePath
      if ¬ importPath = "" then some (quoteImport importPath) else none
    else none)).dedup
  "\"github.com/google/wire\"" :: List.insertionSort (keyLE id) packageImports

/-- One package group of `organizeProvidersByPackage`: the package's
providers sorted by function name. -/
def providerGroup (providers : List ProviderFunction) (pkg : String) :
    List ProviderFunction :=
  List.insertionSort (keyLE ProviderFunction.FunctionName)
    (providers.filter (fun pr => pr.Package = pkg))

/-- Modelled from the spec: the embedded template
`templates/dependencies.tmpl` is not under the sources; per spec 4.6 the
generated file carries the marker, the import block and one aggregated
provider set listing every provider reference (Go templates iterate the
package map in sorted key order). -/
def renderDepsFile (outputPackage : String) (imports refs : List String) : String :=
  "// Code generated by taskw. DO NOT EDIT.\n\npackage " ++ outputPackage
    ++ "\n\nimport (\n"
    ++ String.join (imports.map (fun i => "\t" ++ i ++ "\n"))
    ++ ")\n\nvar ProviderSet = wire.NewSet(\n"
    ++ String.join (refs.map (fun r => "\t" ++ r ++ ",\n"))
    ++ ")\n"

/-- `generateDependencyFileContent` down to the emitted text. -/
def generateDependencyFileContent (module outputDir : String)
    (providers : List ProviderFunction) : String :=
  let outputPackage := getOutputPackageName outputDir
  let pkgs := List.insertionSort (keyLE id) ((providers.map (fun pr => pr.Package)).dedup)
  let refs := pkgs.flatMap (fun pkg =>
    (providerGroup providers pkg).map (fun pr =>
      getProviderRef outputPackage pr.Package pr.FunctionName))
  renderDepsFile outputPackage (generateDepImports module outputDir providers) refs

end Taskw


namespace Taskw

/-! ### AST extractor (`ASTScanner`, the interface-aware revision)

The Go AST is modelled by the shapes the scanner inspects: type
expressions, function declarations with receiver / parameters / results /
doc comments, and interface or struct type declarations. -/

inductive TypeExprM where
  | ident (name : String)
  | star (t : TypeExprM)
  | sel (x : TypeExprM) (name : String)
  | arr (t : TypeExprM)
  | mapT (k v : TypeExprM)
  | otherE
deriving DecidableEq

/-- `ASTScanner.getTypeString`. -/
def getTypeString : TypeExprM → String
  | .ident n => n
  | .star t => "*" ++ getTypeString t
  | .sel x n => getTypeString x ++ "." ++ n
  | .arr t => "[]" ++ getTypeString t
  | .mapT k v => "map[" ++ getTypeString k ++ "]" ++ getTypeString v
  | .otherE => ""

structure FuncTypeM where
  params : List TypeExprM
  results : List TypeExprM
deriving DecidableEq

structure FuncDeclM where
  name : String
  recv : Option TypeExprM
  ftype : FuncTypeM
  doc : List String
deriving DecidableEq

structure MethodM where
  names : List String
  ftype : Option FuncTypeM
deriving DecidableEq

inductive TypeBodyM where
  | interfaceT (methods : List MethodM)
  | structT
  | otherT
deriving DecidableEq

structure TypeSpecM where
  name : String
  body : TypeBodyM
deriving DecidableEq

inductive DeclM where
  | funcDecl (fn : FuncDeclM)
  | typeSpec (ts : TypeSpecM)
deriving DecidableEq

structure FileM where
  pkg : String
  decls : List DeclM
deriving DecidableEq

/-- `ASTScanner.getReceiverTypeName`. -/
def getReceiverTypeName : TypeExprM → String
  | .star (.ident n) => n
  | .ident n => n
  | _ => ""

/-- The `*fiber.Ctx` / `*gin.Context` parameter shape. -/
def isFiberCtxType : TypeExprM → Bool
  | .star (.sel (.ident i) n) => (i = "fiber" ∧ n = "Ctx") ∨ (i = "gin" ∧ n = "Context")
  | _ => false

/-- `hasFiberCtxParam` / `hasFiberCtxParamInFunc`: exactly one parameter of
the request-context shape. -/
def hasFiberCtxParamF (ft : FuncTypeM) : Bool :=
  match ft.params with
  | [p] => isFiberCtxType p
  | _ => false

/-- `returnsError` / `returnsErrorInFunc`: the last result is the
identifier `error`. -/
def returnsErrorF (ft : FuncTypeM) : Bool :=
  match ft.results.getLast? with
  | some (.ident n) => n = "error"
  | some _ => false
  | none => false

/-- `ASTScanner.isHandlerImplementation`. -/
def isHandlerImplementation (name : String) : Bool :=
  name = "HandlerImpl" ∨ goHasSuffix name.data ("Implementation").data = true ∨
    goHasSuffix name.data ("Impl").data = true ∨
    (goHasSuffix name.data ("Handler").data = true ∧
      containsSub name.data ("Impl").data = true)

/-- `ASTScanner.extractHandler`. -/
def extractHandler (fn : FuncDeclM) (pkg filePath : String) : Option HandlerFunction :=
  match fn.recv with
  | none => none
  | some recvType =>
    let handlerName := getReceiverTypeName recvType
    if handlerName = "" then none
    else if ¬ (goHasSuffix handlerName.data ("Handler").data = true ∨
        isHandlerImplementation handlerName = true) then none
    else if ¬ hasFiberCtxParamF fn.ftype = true then none
    else if ¬ returnsErrorF fn.ftype = true then none
    else some ⟨fn.name, pkg, "", handlerName, "", "error", filePath, false⟩

/-- `ASTScanner.isValidHTTPMethod`: the nine-method allow-list of the
annotation scanner. -/
def isValidHTTPMethod (m : String) : Bool :=
  m = "GET" ∨ m = "POST" ∨ m = "PUT" ∨ m = "DELETE" ∨ m = "PATCH" ∨
    m = "HEAD" ∨ m = "OPTIONS" ∨ m = "TRACE" ∨ m = "CONNECT"

/-- `ASTScanner.generateHandlerRef`: `<package>Handler` with a lower-cased
first character, dot, function name. -/
def generateHandlerRef (handler : HandlerFunction) : String :=
  let handlerName := handler.Package ++ "Handler"
  match handlerName.data with
  | [] => "" ++ "." ++ handler.FunctionName
  | c :: rest => (⟨Char.toLower c :: rest⟩ : String) ++ "." ++ handler.FunctionName

/-! The four `@Router` regexes, as deterministic matchers.  Each character
class of the patterns is disjoint from what follows it, so the greedy
maximal munch below coincides with the RE2 semantics, and scanning the
start positions left to right realizes the leftmost match. -/

/-- Case-insensitive literal prefix test (the `(?i)@Router` head). -/
def matchCI (lit s : List Char) : Bool := goToLower (s.take lit.length) = lit

def routerLit : List Char := ['@', 'r', 'o', 'u', 't', 'e', 'r']

/-- Tail of pattern 1 and 4, `\s+([^\s\[\]]+)\s+\[([^\]]+)\]`, applied
right after the `@Router` literal. -/
def parseRouterTail1 (s : List Char) : Option (List Char × List Char) :=
  let s1 := s.dropWhile isReSpace
  if s1.length = s.length then none
  else
    let g1 := s1.takeWhile (fun c => ¬ isReSpace c = true ∧ ¬ c = '[' ∧ ¬ c = ']')
    if g1 = [] then none
    else
      let s2 := s1.drop g1.length
      let s3 := s2.dropWhile isReSpace
      if s3.length = s2.length then none
      else
        match s3 with
        | '[' :: s4 =>
          let g2 := s4.takeWhile (fun c => ¬ c = ']')
          if g2 = [] then none
          else
            match s4.drop g2.length with
            | ']' :: _ => some (g1, g2)
            | _ => none
        | _ => none

/-- Tail of pattern 2, `\s+"([^"]+)"\s+\[([^\]]+)\]`. -/
def parseRouterTail2 (s : List Char) : Option (List Char × List Char) :=
  let s1 := s.dropWhile isReSpace
  if s1.length = s.length then none
  else
    match s1 with
    | '"' :: s2 =>
      let g1 := s2.takeWhile (fun c => ¬ c = '"')
      if g1 = [] then none
      else
        match s2.drop g1.length with
        | '"' :: s3 =>
          let s4 := s3.dropWhile isReSpace
          if s4.length = s3.length then none
          else
            match s4 with
            | '[' :: s5 =>
              let g2 := s5.takeWhile (fun c => ¬ c = ']')
              if g2 = [] then none
              else
                match s5.drop g2.length with
                | ']' :: _ => some (g1, g2)
                | _ => none
            | _ => none
        | _ => none
    | _ => none

/-- Tail of pattern 3, `\s+([^\s]+)\s+([A-Za-z]+)(?:\s|$)`. -/
def parseRouterTail3 (s : List Char) : Option (List Char × List Char) :=
  let s1 := s.dropWhile isReSpace
  if s1.length = s.length then none
  else
    let g1 := s1.takeWhile (fun c => ¬ isReSpace c = true)
    if g1 = [] then none
    else
      let s2 := s1.drop g1.length
      let s3 := s2.dropWhile isReSpace
      if s3.length = s2.length then none
      else
        let g2 := s3.takeWhile (fun c => c.isAlpha)
        if g2 = [] then none
        else
          match s3.drop g2.length with
          | [] => some (g1, g2)
          | c :: _ => if isReSpace c then some (g1, g2) else none

/-- Leftmost application of a `@Router` tail parser over a line. -/
def findRouter (tail : List Char → Option (List Char × List Char)) :
    List Char → Option (List Char × List Char)
  | [] => none
  | c :: t =>
    if matchCI routerLit (c :: t) then
      match tail ((c :: t).drop routerLit.length) with
      | some r => some r
      | none => findRouter tail t
    else findRouter tail t

/-- The ordered pattern table of `extractRoute` (patterns 1 and 4 are the
same expression up to case-insensitivity, which `(?i)` already grants
pattern 1). -/
def routerPatterns : List (List Char → Option (List Char × List Char)) :=
  [findRouter parseRouterTail1, findRouter parseRouterTail2,
   findRouter parseRouterTail3, findRouter parseRouterTail1]

/-- One comment line of `extractRoute`: strip `//` and `*`, try the
patterns in order; a match with an invalid method falls through to the
next pattern. -/
def extractRouteLine (fn : FuncDeclM) (handler : HandlerFunction)
    (raw : String) : Option RouteMapping :=
  let text := goTrimSpace (goTrimPrefix raw.data ("//").data)
  let text := goTrimSpace (goTrimPrefix text ("*").data)
  firstSome (fun pat =>
    match pat text with
    | none => none
    | some (m1, m2) =>
      let path : String := ⟨goTrim m1 ['"', Char.ofNat 39]⟩
      let method : String := ⟨goToUpper (goTrimSpace m2)⟩
      if isValidHTTPMethod method = true then
        some ⟨fn.name, path, method, generateHandlerRef handler, handler.Package, ""⟩
      else none) routerPatterns

/-- `ASTScanner.extractRoute`: first doc-comment line that produces a
route. -/
def extractRoute (fn : FuncDeclM) (handler : HandlerFunction) : Option RouteMapping :=
  firstSome (extractRouteLine fn handler) fn.doc

/-- `hasErrorReturnType`: exactly two results, the second the identifier
`error`. -/
def hasErrorReturnType (ft : FuncTypeM) : Bool :=
  match ft.results with
  | [_, .ident n] => n = "error"
  | _ => false

/-- `ASTScanner.extractProvider`. -/
def extractProvider (fn : FuncDeclM) (pkg filePath : String) : Option ProviderFunction :=
  if ¬ goHasPrefix fn.name.data ("Provide").data = true then none
  else
    match fn.ftype.results with
    | [] => none
    | r0 :: _ =>
      let returnType := getTypeString r0
      if returnType = "" then none
      else
        let returnType :=
          if returnType = "Handler" ∧ hasErrorReturnType fn.ftype = true then
            pkg ++ "." ++ returnType
          else returnType
        let parameters := fn.ftype.params.filterMap (fun p =>
          let t := getTypeString p
          if ¬ t = "" then some t else none)
        some ⟨fn.name, pkg, returnType, parameters, filePath⟩

/-- `ASTScanner.processFuncDecl`. -/
def processFuncDecl (fn : FuncDeclM) (pkg filePath : String)
    (result : ScanResult) : ScanResult :=
  let result :=
    match extractHandler fn pkg filePath with
    | some handler =>
      let result1 := { result with Handlers := result.Handlers ++ [handler] }
      match extractRoute fn handler with
      | some route => { result1 with Routes := result1.Routes ++ [route] }
      | none => result1
    | none => result
  match extractProvider fn pkg filePath with
  | some provider => { result with Providers := result.Providers ++ [provider] }
  | none => result

/-- `ASTScanner.isHandlerInterface`. -/
def isHandlerInterfaceB (name : String) (methods : List MethodM) : Bool :=
  name = "Handler" ∧ methods.any (fun m =>
    match m.ftype with
    | some ft => hasFiberCtxParamF ft ∧ returnsErrorF ft
    | none => false)

/-- `ASTScanner.extractInterfaceMethods`. -/
def extractInterfaceMethods (methods : List MethodM) : List String :=
  methods.filterMap (fun m => m.names.head?)

/-- `ASTScanner.processTypeSpec`. -/
def processTypeSpec (ts : TypeSpecM) (pkg filePath : String)
    (result : ScanResult) : ScanResult :=
  match ts.body with
  | .interfaceT methods =>
    if isHandlerInterfaceB ts.name methods then
      { result with Interfaces :=
          result.Interfaces ++ [⟨ts.name, pkg, extractInterfaceMethods methods, filePath⟩] }
    else result
  | .structT =>
    if isHandlerImplementation ts.name then
      { result with Implementations :=
          result.Implementations ++ [⟨ts.name, pkg, "", [], filePath⟩] }
    else result
  | .otherT => result

/-- `ASTScanner.createInterfaceBasedHandlers`: a second `HandlerFunction`
per handler found on a paired implementation struct. -/
def createInterfaceBasedHandlers (result : ScanResult) : ScanResult :=
  let newHandlers := result.Handlers.flatMap (fun handler =>
    result.Implementations.filterMap (fun impl =>
      if impl.Package = handler.Package ∧ handler.HandlerName = impl.StructName then
        some ⟨handler.FunctionName, handler.Package, "", impl.InterfaceName,
          impl.StructName, handler.ReturnType, handler.FilePath, true⟩
      else none))
  { result with Handlers := result.Handlers ++ newHandlers }

/-- `ASTScanner.associateInterfacesWithImplementations`. -/
def associateInterfacesWithImplementations (result : ScanResult) : ScanResult :=
  let impls := result.Implementations.map (fun impl =>
    match result.Interfaces.find? (fun iface =>
        iface.Package = impl.Package ∧ iface.InterfaceName = "Handler") with
    | some iface => { impl with InterfaceName := iface.InterfaceName }
    | none => impl)
  createInterfaceBasedHandlers { result with Implementations := impls }

/-- `ASTScanner.ScanFile` on a successfully parsed file. -/
def scanFile (file : FileM) (filePath : String) : ScanResult :=
  let base : ScanResult := ⟨[], [], [], [], [], []⟩
  let result := file.decls.foldl (fun res d =>
    match d with
    | .funcDecl fn => processFuncDecl fn file.pkg filePath res
    | .typeSpec ts => processTypeSpec ts file.pkg filePath res) base
  associateInterfacesWithImplementations result

/-! ### Parallel aggregator (`scanner.go`) -/

/-- The `ScanError` recorded for a failed parse (`failed to parse file %s:
%w`; the wrapped parser text is not modelled). -/
def parseErrorFor (filePath : String) : ScanError :=
  ⟨filePath, "failed to parse file " ++ filePath, "parse_error"⟩

/-- The per-file merge step of `scanFilesParallel` (only the four
collections the Go merge copies). -/
def mergeFileResult (acc fileResult : ScanResult) : ScanResult :=
  { acc with
    Handlers := acc.Handlers ++ fileResult.Handlers,
    Routes := acc.Routes ++ fileResult.Routes,
    Providers := acc.Providers ++ fileResult.Providers,
    Errors := acc.Errors ++ fileResult.Errors }

/-- `Scanner.scanFilesParallel`: the workers interleave
nondeterministically but each file's merge is atomic under the mutex, so
the merged result is the fold over some permutation `order` of the
candidate list; `parse` is `ASTScanner.ScanFile` (`none` = parse error). -/
def scanFilesParallel (parse : String → Option ScanResult)
    (order : List String) : ScanResult :=
  order.foldl (fun acc filePath =>
    match parse filePath with
    | none => { acc with Errors := acc.Errors ++ [parseErrorFor filePath] }
    | some fileResult => mergeFileResult acc fileResult)
    ⟨[], [], [], [], [], []⟩

end Taskw


namespace Taskw

/-- The handler field name a route contributes to `extractHandlerInfo`:
the first part of a two-part `HandlerRef`. -/
def handlerFieldName (r : RouteMapping) : Option String :=
  match splitOnChar '.' r.HandlerRef.data with
  | [h, _] => some ⟨h⟩
  | _ => none

end Taskw

namespace Taskw

/-! ### Per-file views of the parallel scan -/

/-- `ASTScanner.ScanFile` as the parallel scanner's parse function: a
front-end parser producing the file's AST (or failing), followed by
`scanFile`. -/
def astParse (parseF : String → Option FileM) (filePath : String) :
    Option ScanResult :=
  (parseF filePath).map (fun file => scanFile file filePath)

/-- The handlers one candidate file contributes to the merged result. -/
def fileHandlers (parse : String → Option ScanResult) (f : String) :
    List HandlerFunction :=
  match parse f with
  | some r => r.Handlers
  | none => []

/-- The routes one candidate file contributes to the merged result. -/
def fileRoutes (parse : String → Option ScanResult) (f : String) :
    List RouteMapping :=
  match parse f with
  | some r => r.Routes
  | none => []

/-- The providers one candidate file contributes to the merged result. -/
def fileProviders (parse : String → Option ScanResult) (f : String) :
    List ProviderFunction :=
  match parse f with
  | some r => r.Providers
  | none => []

/-- The errors one candidate file contributes to the merged result: the
file's own scan errors on success, one parse error on failure. -/
def fileErrors (parse : String → Option ScanResult) (f : String) :
    List ScanError :=
  match parse f with
  | some r => r.Errors
  | none => [parseErrorFor f]

/-- The scanner invariant: every route of a result is matched by a handler
of the same result with the same package and function name. -/
def routesCovered (res : ScanResult) : Prop :=
  ∀ r ∈ res.Routes, ∃ h ∈ res.Handlers,
    h.Package = r.Package ∧ h.FunctionName = r.MethodName

/-- A one-handler source file used to instantiate the scan theorems. -/
def c9File : FileM :=
  ⟨"widget",
   [.funcDecl ⟨"CreateWidget", some (.star (.ident "WidgetHandler")),
      ⟨[.star (.sel (.ident "fiber") "Ctx")], [.ident "error"]⟩,
      ["// @Router /api/v1/widgets [post]"]⟩]⟩

/-- A concrete front-end parser: `good.go` parses to `c9File`, everything
else fails. -/
def c9ParseF (f : String) : Option FileM :=
  if f = "good.go" then some c9File else none

end Taskw

namespace Taskw

/-! ### Helper lemmas -/

theorem countP_flatMap {α β : Type} (p : β → Bool) (f : α → List β) :
    ∀ l : List α, (l.flatMap f).countP p = (l.map (fun x => (f x).countP p)).sum := by
  intro l
  induction l with
  | nil => rfl
  | cons a t ih => simp [List.flatMap_cons, List.countP_append, ih]

theorem sum_map_eq_single {α : Type} [DecidableEq α] {l : List α} {k : α}
    (f : α → Nat) (hnd : l.Nodup) (hk : k ∈ l)
    (h0 : ∀ k' ∈ l, k' ≠ k → f k' = 0) : (l.map f).sum = f k := by
  induction l with
  | nil => cases hk
  | cons a t ih =>
    rcases List.nodup_cons.mp hnd with ⟨hat, hnt⟩
    rcases List.mem_cons.mp hk with h | h
    · subst h
      have : ∀ k' ∈ t, f k' = 0 := by
        intro k' hk'
        exact h0 k' (List.mem_cons_of_mem _ hk') (fun he => hat (he ▸ hk'))
      have ht : (t.map f).sum = 0 := by
        rw [List.sum_eq_zero_iff]
        intro x hx
        rcases List.mem_map.mp hx with ⟨k', hk', rfl⟩
        exact this k' hk'
      simp [ht]
    · have ha : f a = 0 := h0 a (List.mem_cons_self _ _) (fun he => hat (he ▸ h))
      have := ih hnt h (fun k' hk' hne => h0 k' (List.mem_cons_of_mem _ hk') hne)
      simp [ha, this]

theorem countP_of_key_pred {α : Type} [DecidableEq α] {k : α}
    {p : α → Bool} (hp : ∀ x, p x = true → x = k) :
    ∀ l : List α, l.Nodup → l.countP p = if k ∈ l ∧ p k = true then 1 else 0 := by
  intro l
  induction l with
  | nil => intro _; simp
  | cons a t ih =>
    intro hnd
    rcases List.nodup_cons.mp hnd with ⟨hat, hnt⟩
    rw [List.countP_cons, ih hnt]
    by_cases hpa : p a = true
    · have hak : a = k := hp a hpa
      subst hak
      simp [hpa, hat]
    · by_cases hpk : p k = true
      · have hka : k ≠ a := by
          intro he
          rw [he] at hpk
          exact hpa hpk
        simp [hpa, hpk, List.mem_cons, hka]
      · simp [hpa, hpk]

theorem string_append_cancel_left {a b c : String} (h : a ++ b = a ++ c) : b = c := by
  apply String.ext
  have hd : a.data ++ b.data = a.data ++ c.data := by
    rw [← String.data_append, ← String.data_append, h]
  exact List.append_cancel_left hd

theorem string_append_cancel_right {a b c : String} (h : a ++ c = b ++ c) : a = b := by
  apply String.ext
  have hd : a.data ++ c.data = b.data ++ c.data := by
    rw [← String.data_append, ← String.data_append, h]
  exact List.append_cancel_right hd

theorem invalidPatternErrors_length (routes : List RouteMapping) :
    (invalidPatternErrors routes).length =
      (routes.filter (fun r => (validateRoutePattern r).isSome)).length := by
  induction routes with
  | nil => rfl
  | cons r t ih =>
    simp only [invalidPatternErrors, List.filterMap_cons, List.filter_cons] at *
    cases h : validateRoutePattern r <;> simp [h, ih]

end Taskw

open Taskw

/-- C5: evaluation of the ignore matcher on the three paths of the claim.
The pattern matches the bare `c_test.go` and rejects `c_test.go.bak`, but
contrary to the claim and the spec it fails to match the nested
`a/b/c_test.go`: the suffix part of the `**` split is matched anchored at
the first path segment. -/
theorem c5_match_pattern_eval :
    matchPatternS ("**/*_test.go") ("a/b/c_test.go") = false ∧
    matchPatternS ("**/*_test.go") ("c_test.go") = true ∧
    matchPatternS ("**/*_test.go") ("c_test.go.bak") = false := by
  decide

/-- C4 (amended): the Validator emits no `invalid_route_pattern` error for a
route exactly when its path starts with `/`, no static segment contains
whitespace, and its HTTP method is in the validator's *seven*-method
allow-list GET, POST, PUT, DELETE, PATCH, HEAD, OPTIONS (TRACE and CONNECT,
accepted by the annotation scanner, are rejected here); and `validateRoutes`
emits exactly one such error per failing route. -/
theorem c4_invalid_route_pattern_iff :
    (∀ route : RouteMapping,
      validateRoutePattern route = none ↔
        (goHasPrefix route.Path.data ['/'] = true ∧
         (∀ seg ∈ splitOnChar '/' route.Path.data, badStaticSegment seg = false) ∧
         route.HTTPMethod ∈ validatorMethods)) ∧
    (∀ routes : List RouteMapping,
      (validateRoutes routes).countP (fun e => e.Kind = "invalid_route_pattern") =
        (routes.filter (fun r => (validateRoutePattern r).isSome)).length) := by
  constructor
  · intro route
    unfold validateRoutePattern
    by_cases h1 : goHasPrefix route.Path.data ['/'] = true
    · rw [if_neg (not_not_intro h1)]
      by_cases h2 : (splitOnChar '/' route.Path.data).any badStaticSegment = true
      · rw [if_pos h2]
        have hnall : ¬ (∀ seg ∈ splitOnChar '/' route.Path.data,
            badStaticSegment seg = false) := by
          intro hall
          rcases List.any_eq_true.mp h2 with ⟨seg, hmem, hbad⟩
          rw [hall seg hmem] at hbad
          cases hbad
        exact iff_of_false (by simp) (fun h => hnall h.2.1)
      · rw [if_neg h2]
        by_cases h3 : route.HTTPMethod ∈ validatorMethods
        · rw [if_neg (not_not_intro h3)]
          refine iff_of_true rfl ⟨h1, ?_, h3⟩
          intro seg hmem
          have h2f : (splitOnChar '/' route.Path.data).any badStaticSegment = false := by
            simpa using h2
          simpa using List.any_eq_false.mp h2f seg hmem
        · rw [if_pos h3]
          exact iff_of_false (by simp) (fun h => h3 h.2.2)
    · rw [if_pos h1]
      exact iff_of_false (by simp) (fun h => h1 h.1)
  · intro routes
    unfold validateRoutes
    rw [List.countP_append]
    have hdup : (duplicateRouteErrors routes).countP
        (fun e => e.Kind = "invalid_route_pattern") = 0 := by
      rw [List.countP_eq_zero]
      intro e he
      rcases List.mem_flatMap.mp he with ⟨k, _, hek⟩
      simp only at hek
      split_ifs at hek
      · rcases List.mem_map.mp hek with ⟨_, _, rfl⟩
        simp
      · cases hek
    have hinv : (invalidPatternErrors routes).countP
        (fun e => e.Kind = "invalid_route_pattern") =
        (invalidPatternErrors routes).length := by
      rw [List.countP_eq_length]
      intro e he
      rcases List.mem_filterMap.mp he with ⟨r, _, her⟩
      rcases Option.map_eq_some'.mp her with ⟨msg, _, rfl⟩
      simp
    rw [hdup, hinv, invalidPatternErrors_length]
    omega

/-- C4 witness: a well-formed GET route is accepted by the validator. -/
theorem c4_invalid_route_pattern_witness :
    validateRoutePattern ⟨"f", "/ok", "GET", "h.f", "p", ""⟩ = none :=
  (c4_invalid_route_pattern_iff.1 ⟨"f", "/ok", "GET", "h.f", "p", ""⟩).mpr (by decide)

/-- C4 counterexample: a route using TRACE — a member of the claim's
nine-method allow-list — whose path is well-formed still draws an
`invalid_route_pattern` error, because the validator's own list stops at
OPTIONS. -/
theorem c4_trace_rejected :
    (("TRACE" : String) ∈ ["GET", "POST", "PUT", "DELETE", "PATCH", "HEAD",
        "OPTIONS", "TRACE", "CONNECT"]) ∧
    goHasPrefix ("/x" : String).data ['/'] = true ∧
    (splitOnChar '/' ("/x" : String).data).all (fun seg => !badStaticSegment seg) = true ∧
    (validateRoutes [⟨"f", "/x", "TRACE", "h.f", "p", ""⟩]).countP
        (fun e => e.Kind = "invalid_route_pattern") = 1 := by
  decide

namespace Taskw

theorem countP_const {α : Type} (b : Bool) (l : List α) :
    l.countP (fun _ => b) = if b then l.length else 0 := by
  induction l with
  | nil => cases b <;> rfl
  | cons a t ih =>
    rw [List.countP_cons, ih]
    cases b <;> simp

theorem append_space_inj {a b c d : List Char}
    (ha : a.contains ' ' = false) (hc : c.contains ' ' = false)
    (h : a ++ ' ' :: b = c ++ ' ' :: d) : a = c ∧ b = d := by
  induction a generalizing c with
  | nil =>
    cases c with
    | nil => simpa using h
    | cons y ys =>
      exfalso
      have hy : ' ' = y := by simpa using congrArg (fun l => l.head?) h
      have : ' ' ∉ (y :: ys) := by simpa using hc
      exact this (hy ▸ List.mem_cons_self _ _)
  | cons x xs ih =>
    cases c with
    | nil =>
      exfalso
      have hx : x = ' ' := by simpa using congrArg (fun l => l.head?) h
      have : ' ' ∉ (x :: xs) := by simpa using ha
      exact this (by rw [← hx]; exact List.mem_cons_self _ _)
    | cons y ys =>
      have hxy : x = y ∧ xs ++ ' ' :: b = ys ++ ' ' :: d := by simpa using h
      have ha' : xs.contains ' ' = false := by
        have : ' ' ∉ (x :: xs) := by simpa using ha
        simpa using fun hm => this (List.mem_cons_of_mem _ hm)
      have hc' : ys.contains ' ' = false := by
        have : ' ' ∉ (y :: ys) := by simpa using hc
        simpa using fun hm => this (List.mem_cons_of_mem _ hm)
      rcases ih ha' hc' hxy.2 with ⟨h1, h2⟩
      exact ⟨by rw [hxy.1, h1], h2⟩

theorem routeKeyString_data (r : RouteMapping) :
    (routeKeyString r).data = r.HTTPMethod.data ++ ' ' :: r.Path.data := by
  simp [routeKeyString, String.data_append]

theorem routeKeyString_eq_iff {r r' : RouteMapping}
    (h : r.HTTPMethod.data.contains ' ' = false)
    (h' : r'.HTTPMethod.data.contains ' ' = false) :
    routeKeyString r' = routeKeyString r ↔
      (r'.HTTPMethod = r.HTTPMethod ∧ r'.Path = r.Path) := by
  constructor
  · intro he
    have hd := congrArg String.data he
    rw [routeKeyString_data, routeKeyString_data] at hd
    rcases append_space_inj h' h hd with ⟨h1, h2⟩
    exact ⟨String.ext h1, String.ext h2⟩
  · rintro ⟨hm, hp⟩
    simp [routeKeyString, hm, hp]

end Taskw

/-- C6 (amended): for routes whose HTTP methods contain no space character —
true of every real method — the string key `HTTPMethod ++ " " ++ Path` used
by `validateRoutes` groups exactly like the `(HTTPMethod, Path)` pair, and
each route of a pair group of size above one draws exactly one
`duplicate_route` error while singleton groups draw none. -/
theorem c6_duplicate_route_counts :
    ∀ routes : List RouteMapping,
      (∀ r ∈ routes, r.HTTPMethod.data.contains ' ' = false) →
      ∀ r ∈ routes,
        (validateRoutes routes).countP
            (fun e => e.Kind = "duplicate_route" ∧
              e.Message = "Duplicate route found: " ++ routeKeyString r) =
          if 1 < pairGroupSize routes r.HTTPMethod r.Path then
            pairGroupSize routes r.HTTPMethod r.Path
          else 0 := by
  intro routes hns r hr
  have hgrp : routes.filter (fun r' => routeKeyString r' = routeKeyString r) =
      routes.filter (fun r' => r'.HTTPMethod = r.HTTPMethod ∧ r'.Path = r.Path) := by
    apply List.filter_congr
    intro r' hr'
    have := routeKeyString_eq_iff (hns r hr) (hns r' hr')
    simp only [decide_eq_decide]
    exact this
  have hpair : (routes.filter (fun r' => routeKeyString r' = routeKeyString r)).length =
      pairGroupSize routes r.HTTPMethod r.Path := by
    rw [hgrp]; rfl
  unfold validateRoutes
  rw [List.countP_append]
  have hinv : (invalidPatternErrors routes).countP
      (fun e => e.Kind = "duplicate_route" ∧
        e.Message = "Duplicate route found: " ++ routeKeyString r) = 0 := by
    rw [List.countP_eq_zero]
    intro e he
    rcases List.mem_filterMap.mp he with ⟨r', _, her⟩
    rcases Option.map_eq_some'.mp her with ⟨msg, _, rfl⟩
    simp
  rw [hinv]
  unfold duplicateRouteErrors
  rw [countP_flatMap]
  have hk : routeKeyString r ∈ (routes.map routeKeyString).dedup :=
    List.mem_dedup.mpr (List.mem_map_of_mem _ hr)
  rw [sum_map_eq_single _ (List.nodup_dedup _) hk]
  · rw [Nat.add_zero]
    by_cases hlen :
        1 < (routes.filter (fun r' => routeKeyString r' = routeKeyString r)).length
    · rw [if_pos hlen]
      rw [List.countP_map]
      have : ((fun e : ValidationError => decide (e.Kind = "duplicate_route" ∧
          e.Message = "Duplicate route found: " ++ routeKeyString r)) ∘
          (fun _ : RouteMapping =>
            (⟨"duplicate_route", "Duplicate route found: " ++ routeKeyString r⟩ :
              ValidationError))) = fun _ => true := by
        funext x
        simp
      rw [this, countP_const, if_pos rfl, hpair, if_pos (hpair ▸ hlen)]
    · rw [if_neg hlen]
      rw [if_neg (hpair ▸ hlen)]
      rfl
  · intro k' hk' hne
    by_cases hlen : 1 < (routes.filter (fun r' => routeKeyString r' = k')).length
    · rw [if_pos hlen, List.countP_map]
      have : ((fun e : ValidationError => decide (e.Kind = "duplicate_route" ∧
          e.Message = "Duplicate route found: " ++ routeKeyString r)) ∘
          (fun _ : RouteMapping =>
            (⟨"duplicate_route", "Duplicate route found: " ++ k'⟩ :
              ValidationError))) = fun _ => false := by
        funext x
        simp only [Function.comp_apply, decide_eq_false_iff_not]
        rintro ⟨-, hmsg⟩
        exact hne (string_append_cancel_left hmsg)
      rw [this, countP_const]
      rfl
    · rw [if_neg hlen]
      rfl

/-- C6 witness: two routes sharing GET /x draw exactly two
`duplicate_route` errors. -/
theorem c6_duplicate_route_counts_witness :
    (validateRoutes [⟨"f", "/x", "GET", "h.f", "p", ""⟩,
        ⟨"g", "/x", "GET", "h.g", "p", ""⟩]).countP
        (fun e => e.Kind = "duplicate_route" ∧
          e.Message = "Duplicate route found: " ++
            routeKeyString ⟨"f", "/x", "GET", "h.f", "p", ""⟩) = 2 := by
  have h := c6_duplicate_route_counts
      [⟨"f", "/x", "GET", "h.f", "p", ""⟩, ⟨"g", "/x", "GET", "h.g", "p", ""⟩]
      (by decide) ⟨"f", "/x", "GET", "h.f", "p", ""⟩ (by decide)
  rw [h]
  decide

/-- C6 counterexample: two routes in distinct `(HTTPMethod, Path)` pairs —
each pair group is a singleton — still draw two `duplicate_route` errors,
because the code groups by the concatenated string `HTTPMethod ++ " " ++
Path` and `("GET", "/a /b")` collides with `("GET /a", "/b")`. -/
theorem c6_pair_grouping_counterexample :
    pairGroupSize [⟨"f", "/a /b", "GET", "h.f", "p", ""⟩,
        ⟨"g", "/b", "GET /a", "h.g", "p", ""⟩] ("GET") ("/a /b") = 1 ∧
    pairGroupSize [⟨"f", "/a /b", "GET", "h.f", "p", ""⟩,
        ⟨"g", "/b", "GET /a", "h.g", "p", ""⟩] ("GET /a") ("/b") = 1 ∧
    (validateRoutes [⟨"f", "/a /b", "GET", "h.f", "p", ""⟩,
        ⟨"g", "/b", "GET /a", "h.g", "p", ""⟩]).countP
        (fun e => e.Kind = "duplicate_route") = 2 := by
  decide

namespace Taskw

theorem routeWithoutHandlerMsg_inj {k k' : String}
    (h : routeWithoutHandlerMsg k' = routeWithoutHandlerMsg k) : k' = k := by
  unfold routeWithoutHandlerMsg at h
  exact string_append_cancel_left (string_append_cancel_right h)

theorem handlerWithoutRouteMsg_inj {k k' : String}
    (h : handlerWithoutRouteMsg k' = handlerWithoutRouteMsg k) : k' = k := by
  unfold handlerWithoutRouteMsg at h
  exact string_append_cancel_left (string_append_cancel_right h)

theorem countP_filterMap_key {β : Type} [DecidableEq β] {mk : String → β}
    {P : String → Prop} [DecidablePred P] {p : β → Bool} {k : String}
    (hinj : ∀ x, ¬ P x → p (mk x) = true → x = k) :
    ∀ l : List String, l.Nodup →
      (l.filterMap (fun x => if P x then none else some (mk x))).countP p =
        if k ∈ l ∧ ¬ P k ∧ p (mk k) = true then 1 else 0 := by
  intro l
  induction l with
  | nil => intro _; simp
  | cons a t ih =>
    intro hnd
    rcases List.nodup_cons.mp hnd with ⟨hat, hnt⟩
    rw [List.filterMap_cons]
    by_cases hpa : P a
    · rw [if_pos hpa, ih hnt]
      by_cases hka : k = a
      · subst hka
        simp [hpa]
      · simp [List.mem_cons, hka]
    · rw [if_neg hpa]
      simp only [List.countP_cons, ih hnt]
      by_cases hpk : p (mk a) = true
      · have hak : a = k := hinj a hpa hpk
        subst hak
        simp [hpk, hpa, hat]
      · by_cases hka : k = a
        · subst hka
          simp [hpk]
        · simp [List.mem_cons, hka, hpk]

end Taskw

/-- C7: `validateHandlerRouteMatching` builds `package.functionName` keyed
maps; each distinct route key with no handler under the same key yields
exactly one `route_without_handler` error, each distinct handler key with
no route under the same key yields exactly one `handler_without_route`
warning, and the two passes emit nothing else. -/
theorem c7_cross_reference_counts :
    ∀ (handlers : List HandlerFunction) (routes : List RouteMapping),
      (∀ k : String,
        (routeWithoutHandlerErrors handlers routes).countP
            (fun e => e.Message = routeWithoutHandlerMsg k) =
          if k ∈ routes.map routeRefKeyOf ∧ ¬ k ∈ handlers.map handlerKeyOf
          then 1 else 0) ∧
      (∀ k : String,
        (handlerWithoutRouteWarnings handlers routes).countP
            (fun w => w.Message = handlerWithoutRouteMsg k) =
          if k ∈ handlers.map handlerKeyOf ∧ ¬ k ∈ routes.map routeRefKeyOf
          then 1 else 0) ∧
      (∀ e ∈ routeWithoutHandlerErrors handlers routes,
        e.Kind = "route_without_handler") ∧
      (∀ w ∈ handlerWithoutRouteWarnings handlers routes,
        w.Kind = "handler_without_route") := by
  intro handlers routes
  refine ⟨?_, ?_, ?_, ?_⟩
  · intro k
    unfold routeWithoutHandlerErrors
    have hinj : ∀ x : String, ¬ x ∈ handlers.map handlerKeyOf →
        (decide ((⟨"route_without_handler", routeWithoutHandlerMsg x⟩ :
          ValidationError).Message = routeWithoutHandlerMsg k)) = true → x = k := by
      intro x _ hx
      exact routeWithoutHandlerMsg_inj (by simpa using hx)
    rw [countP_filterMap_key hinj _ (List.nodup_dedup _)]
    by_cases hmem : k ∈ handlers.map handlerKeyOf
    · simp [hmem, List.mem_dedup]
    · simp [hmem, List.mem_dedup]
  · intro k
    unfold handlerWithoutRouteWarnings
    have hinj : ∀ x : String, ¬ x ∈ routes.map routeRefKeyOf →
        (decide ((⟨"handler_without_route", handlerWithoutRouteMsg x⟩ :
          ValidationWarning).Message = handlerWithoutRouteMsg k)) = true → x = k := by
      intro x _ hx
      exact handlerWithoutRouteMsg_inj (by simpa using hx)
    rw [countP_filterMap_key hinj _ (List.nodup_dedup _)]
    by_cases hmem : k ∈ routes.map routeRefKeyOf
    · simp [hmem, List.mem_dedup]
    · simp [hmem, List.mem_dedup]
  · intro e he
    rcases List.mem_filterMap.mp he with ⟨x, _, hxe⟩
    by_cases hmem : x ∈ handlers.map handlerKeyOf
    · rw [if_pos hmem] at hxe
      cases hxe
    · rw [if_neg hmem] at hxe
      cases hxe
      rfl
  · intro w hw
    rcases List.mem_filterMap.mp hw with ⟨x, _, hxw⟩
    by_cases hmem : x ∈ routes.map routeRefKeyOf
    · rw [if_pos hmem] at hxw
      cases hxw
    · rw [if_neg hmem] at hxw
      cases hxw
      rfl

/-- C7 witness: one route with no handlers yields exactly one
`route_without_handler` error for its key. -/
theorem c7_cross_reference_counts_witness :
    (routeWithoutHandlerErrors [] [⟨"f", "/x", "GET", "h.f", "p", ""⟩]).countP
        (fun e => e.Message = routeWithoutHandlerMsg ("p.f")) = 1 := by
  have h := (c7_cross_reference_counts [] [⟨"f", "/x", "GET", "h.f", "p", ""⟩]).1 ("p.f")
  rw [h]
  decide

namespace Taskw

/-! ### Order lemmas for the Go-style comparisons -/

theorem charListLt_irrefl : ∀ l : List Char, charListLt l l = false := by
  intro l
  induction l with
  | nil => rfl
  | cons a t ih => simp [charListLt, ih, lt_irrefl]

theorem charListLt_trans :
    ∀ a b c : List Char, charListLt a b = true → charListLt b c = true →
      charListLt a c = true := by
  intro a
  induction a with
  | nil =>
    intro b c hab hbc
    cases b with
    | nil => cases hab
    | cons y ys =>
      cases c with
      | nil => simp [charListLt] at hbc
      | cons z zs => rfl
  | cons x xs ih =>
    intro b c hab hbc
    cases b with
    | nil => simp [charListLt] at hab
    | cons y ys =>
      cases c with
      | nil => simp [charListLt] at hbc
      | cons z zs =>
        simp only [charListLt] at hab hbc ⊢
        by_cases hxy : x < y
        · by_cases hyz : y < z
          · simp [lt_trans hxy hyz]
          · by_cases hzy : z < y
            · simp [hyz, hzy] at hbc
            · have hyz_eq : y = z := le_antisymm (not_lt.mp hzy) (not_lt.mp hyz)
              subst hyz_eq
              simp [hxy]
        · by_cases hyx : y < x
          · simp [hxy, hyx] at hab
          · have hxy_eq : x = y := le_antisymm (not_lt.mp hyx) (not_lt.mp hxy)
            subst hxy_eq
            simp [lt_irrefl] at hab
            by_cases hyz : x < z
            · simp [hyz]
            · by_cases hzy : z < x
              · simp [hyz, hzy] at hbc
              · have hyz_eq : x = z := le_antisymm (not_lt.mp hzy) (not_lt.mp hyz)
                subst hyz_eq
                simp [lt_irrefl] at hbc ⊢
                exact ih ys zs hab hbc

theorem charListLt_trichotomy :
    ∀ a b : List Char, charListLt a b = true ∨ a = b ∨ charListLt b a = true := by
  intro a
  induction a with
  | nil =>
    intro b
    cases b with
    | nil => exact Or.inr (Or.inl rfl)
    | cons y ys => exact Or.inl rfl
  | cons x xs ih =>
    intro b
    cases b with
    | nil => exact Or.inr (Or.inr rfl)
    | cons y ys =>
      rcases lt_trichotomy x y with h | h | h
      · left
        simp [charListLt, h]
      · subst h
        rcases ih ys with h2 | h2 | h2
        · left
          simp [charListLt, lt_irrefl, h2]
        · right; left
          rw [h2]
        · right; right
          simp [charListLt, lt_irrefl, h2]
      · right; right
        simp [charListLt, h]

theorem charListLt_asymm {a b : List Char} (h : charListLt a b = true) :
    charListLt b a = false := by
  by_contra hc
  have h2 : charListLt b a = true := by simpa using hc
  have := charListLt_trans _ _ _ h h2
  rw [charListLt_irrefl] at this
  cases this

theorem strLtB_irrefl (s : String) : strLtB s s = false := charListLt_irrefl _

theorem strLtB_trans {a b c : String} (h1 : strLtB a b = true)
    (h2 : strLtB b c = true) : strLtB a c = true :=
  charListLt_trans _ _ _ h1 h2

theorem strLtB_trichotomy (a b : String) :
    strLtB a b = true ∨ a = b ∨ strLtB b a = true := by
  rcases charListLt_trichotomy a.data b.data with h | h | h
  · exact Or.inl h
  · exact Or.inr (Or.inl (String.ext h))
  · exact Or.inr (Or.inr h)

theorem strLtB_asymm {a b : String} (h : strLtB a b = true) : strLtB b a = false :=
  charListLt_asymm h

theorem keyLE_total {α : Type} (key : α → String) :
    ∀ a b : α, keyLE key a b ∨ keyLE key b a := by
  intro a b
  by_cases h : strLtB (key b) (key a) = false
  · exact Or.inl h
  · right
    have h1 : strLtB (key b) (key a) = true := by simpa using h
    exact strLtB_asymm h1

theorem keyLE_trans {α : Type} (key : α → String) :
    ∀ a b c : α, keyLE key a b → keyLE key b c → keyLE key a c := by
  intro a b c hab hbc
  unfold keyLE at *
  by_contra h
  have hca : strLtB (key c) (key a) = true := by simpa using h
  rcases strLtB_trichotomy (key c) (key b) with h1 | h1 | h1
  · rw [h1] at hbc
    cases hbc
  · rw [h1] at hca
    rw [hab] at hca
    cases hca
  · have := strLtB_trans h1 hca
    rw [hab] at this
    cases this

theorem keyLE_antisymm_str : ∀ a b : String, keyLE id a b → keyLE id b a → a = b := by
  intro a b hab hba
  rcases strLtB_trichotomy a b with h | h | h
  · exact absurd h (by simpa [keyLE] using hba)
  · exact h
  · exact absurd h (by simpa [keyLE] using hab)

theorem eq_of_perm_of_pairwise_strict {α : Type} {lt : α → α → Prop}
    (htrans : ∀ a b c, lt a b → lt b c → lt a c) (hirr : ∀ a, ¬ lt a a)
    {l₁ l₂ : List α} (h : l₁.Perm l₂) (s₁ : l₁.Pairwise lt) (s₂ : l₂.Pairwise lt) :
    l₁ = l₂ :=
  @List.eq_of_perm_of_sorted α lt
    ⟨fun a b hab hba => absurd (htrans a b a hab hba) (hirr a)⟩ l₁ l₂ h s₁ s₂

theorem routeLess_eq_true_iff (a b : RouteMapping) :
    routeLess a b = true ↔ routeKeyLt a b := by
  unfold routeLess routeKeyLt
  by_cases h1 : calculateSpecificityScore a.Path = calculateSpecificityScore b.Path
  · rw [if_neg (not_not_intro h1)]
    by_cases h2 : a.HTTPMethod = b.HTTPMethod
    · rw [if_neg (not_not_intro h2)]
      constructor
      · intro h
        exact Or.inr ⟨h1, Or.inr ⟨h2, h⟩⟩
      · rintro (h | ⟨-, h | ⟨-, h⟩⟩)
        · exfalso
          rw [h1] at h
          exact lt_irrefl _ h
        · exfalso
          rw [h2, strLtB_irrefl] at h
          cases h
        · exact h
    · rw [if_pos h2]
      constructor
      · intro h
        exact Or.inr ⟨h1, Or.inl h⟩
      · rintro (h | ⟨-, h | ⟨he, -⟩⟩)
        · exfalso
          rw [h1] at h
          exact lt_irrefl _ h
        · exact h
        · exact absurd he h2
  · rw [if_pos h1]
    constructor
    · intro h
      exact Or.inl (by simpa using h)
    · rintro (h | ⟨he, -⟩)
      · simpa using h
      · exact absurd he h1

theorem routeKeyLt_irrefl (a : RouteMapping) : ¬ routeKeyLt a a := by
  unfold routeKeyLt
  rintro (h | ⟨-, h | ⟨-, h⟩⟩)
  · exact lt_irrefl _ h
  · rw [strLtB_irrefl] at h
    cases h
  · rw [strLtB_irrefl] at h
    cases h

theorem routeKeyLt_trans {a b c : RouteMapping} (h1 : routeKeyLt a b)
    (h2 : routeKeyLt b c) : routeKeyLt a c := by
  unfold routeKeyLt at *
  rcases h1 with h1 | ⟨e1, h1⟩
  · rcases h2 with h2 | ⟨e2, h2⟩
    · exact Or.inl (lt_trans h2 h1)
    · exact Or.inl (by omega)
  · rcases h2 with h2 | ⟨e2, h2⟩
    · exact Or.inl (by omega)
    · refine Or.inr ⟨by omega, ?_⟩
      rcases h1 with h1 | ⟨f1, h1⟩
      · rcases h2 with h2 | ⟨f2, h2⟩
        · exact Or.inl (strLtB_trans h1 h2)
        · exact Or.inl (f2 ▸ h1)
      · rcases h2 with h2 | ⟨f2, h2⟩
        · exact Or.inl (f1.symm ▸ h2)
        · exact Or.inr ⟨f1.trans f2, strLtB_trans h1 h2⟩

theorem routeKey_trichotomy (a b : RouteMapping) :
    routeKeyLt a b ∨
      (calculateSpecificityScore a.Path = calculateSpecificityScore b.Path ∧
        a.HTTPMethod = b.HTTPMethod ∧ a.Path = b.Path) ∨
      routeKeyLt b a := by
  unfold routeKeyLt
  rcases lt_trichotomy (calculateSpecificityScore a.Path)
      (calculateSpecificityScore b.Path) with hs | hs | hs
  · exact Or.inr (Or.inr (Or.inl hs))
  · rcases strLtB_trichotomy a.HTTPMethod b.HTTPMethod with hm | hm | hm
    · exact Or.inl (Or.inr ⟨hs, Or.inl hm⟩)
    · rcases strLtB_trichotomy a.Path b.Path with hp | hp | hp
      · exact Or.inl (Or.inr ⟨hs, Or.inr ⟨hm, hp⟩⟩)
      · exact Or.inr (Or.inl ⟨hs, hm, hp⟩)
      · exact Or.inr (Or.inr (Or.inr ⟨hs.symm, Or.inr ⟨hm.symm, hp⟩⟩))
    · exact Or.inr (Or.inr (Or.inr ⟨hs.symm, Or.inl hm⟩))
  · exact Or.inl (Or.inl hs)

theorem routeKeyLt_congr_left {b c a : RouteMapping}
    (hm : c.HTTPMethod = b.HTTPMethod) (hp : c.Path = b.Path)
    (h : routeKeyLt c a) : routeKeyLt b a := by
  unfold routeKeyLt at h ⊢
  rw [hp, hm] at h
  exact h

theorem routeLE_total : ∀ a b : RouteMapping, routeLE a b ∨ routeLE b a := by
  intro a b
  by_cases h : routeLess b a = false
  · exact Or.inl h
  · right
    by_contra h2
    have k1 : routeKeyLt b a := (routeLess_eq_true_iff _ _).mp (by simpa using h)
    have k2 : routeKeyLt a b :=
      (routeLess_eq_true_iff _ _).mp (by simpa [routeLE] using h2)
    exact routeKeyLt_irrefl a (routeKeyLt_trans k2 k1)

theorem routeLE_trans :
    ∀ a b c : RouteMapping, routeLE a b → routeLE b c → routeLE a c := by
  intro a b c hab hbc
  by_contra h
  have k : routeKeyLt c a :=
    (routeLess_eq_true_iff _ _).mp (by simpa [routeLE] using h)
  have hnba : ¬ routeKeyLt b a := fun hk => by
    have := (routeLess_eq_true_iff _ _).mpr hk
    rw [hab] at this
    cases this
  have hncb : ¬ routeKeyLt c b := fun hk => by
    have := (routeLess_eq_true_iff _ _).mpr hk
    rw [hbc] at this
    cases this
  rcases routeKey_trichotomy c b with h1 | h1 | h1
  · exact hncb h1
  · exact hnba (routeKeyLt_congr_left h1.2.1 h1.2.2 k)
  · exact hnba (routeKeyLt_trans h1 k)

theorem routeKeyLt_of_le_of_ne {a b : RouteMapping} (h : routeLE a b)
    (hne : ¬ (a.HTTPMethod = b.HTTPMethod ∧ a.Path = b.Path)) : routeKeyLt a b := by
  have hnot : ¬ routeKeyLt b a := fun hk => by
    have := (routeLess_eq_true_iff b a).mpr hk
    rw [h] at this
    cases this
  rcases routeKey_trichotomy a b with h1 | h1 | h1
  · exact h1
  · exact absurd ⟨h1.2.1, h1.2.2⟩ hne
  · exact absurd h1 hnot

end Taskw

namespace Taskw

theorem score_foldl (l : List (List Char)) :
    ∀ init : Int,
      l.foldl (fun score seg =>
        if goHasPrefix seg [':'] = true then score - 100 else score + 100) init =
      init + 100 * ((l.filter (fun seg => ¬ goHasPrefix seg [':'] = true)).length : Int)
        - 100 * ((l.filter (fun seg => goHasPrefix seg [':'] = true)).length : Int) := by
  induction l with
  | nil => intro init; simp
  | cons seg t ih =>
    intro init
    rw [List.foldl_cons]
    by_cases h : goHasPrefix seg [':'] = true
    · rw [if_pos h, ih]
      simp only [List.filter_cons, h]
      simp
      ring
    · rw [if_neg h, ih]
      simp only [List.filter_cons, h]
      simp [h]
      ring

theorem specificityScoreSpec_eq (path : String) :
    specificityScoreSpec path = calculateSpecificityScore path := by
  simp only [specificityScoreSpec, calculateSpecificityScore]
  rw [score_foldl]

end Taskw

/-- C1: the emitted registration statements come in non-increasing
specificity-score order — the claim's formula (per segment of the
slash-trimmed path: 1000 base, +100 static, −100 parameter) — and for the
two GET routes /users/:id and /users/search the generator places
/users/search first. -/
theorem c1_specificity_ordering :
    (∀ routes : List RouteMapping,
      (orderedRoutes routes).Pairwise
        (fun a b => specificityScoreSpec b.Path ≤ specificityScoreSpec a.Path)) ∧
    orderedRoutes
        [⟨"GetUser", "/users/:id", "GET", "userHandler.GetUser", "user", ""⟩,
         ⟨"SearchUsers", "/users/search", "GET", "userHandler.SearchUsers", "user", ""⟩] =
      [⟨"SearchUsers", "/users/search", "GET", "userHandler.SearchUsers", "user", ""⟩,
       ⟨"GetUser", "/users/:id", "GET", "userHandler.GetUser", "user", ""⟩] := by
  constructor
  · intro routes
    have hs : List.Sorted routeLE (orderedRoutes routes) := by
      haveI : IsTotal RouteMapping routeLE := ⟨routeLE_total⟩
      haveI : IsTrans RouteMapping routeLE := ⟨routeLE_trans⟩
      exact List.sorted_insertionSort routeLE _
    refine hs.imp ?_
    intro a b hab
    have hnot : ¬ routeKeyLt b a := fun hk => by
      have := (routeLess_eq_true_iff _ _).mpr hk
      rw [hab] at this
      cases this
    rw [specificityScoreSpec_eq, specificityScoreSpec_eq]
    by_contra hgt
    push_neg at hgt
    exact hnot (Or.inl hgt)
  · decide

/-- C3: evaluation of the Route Generator's import derivation.  For a
handler package `user` in module example.com/app it emits
example.com/app/internal/user no matter where the handler's source file
lives; the location-derived path of `pkg/user/handler.go` — which the spec
demands and which the Dependency Generator's own deriveImportPath
computes — is example.com/app/pkg/user. -/
theorem c3_hardcoded_import_path :
    deriveHandlerImportPath ("example.com/app") ("user") =
      "example.com/app/internal/user" ∧
    deriveImportPath ("example.com/app") ("pkg/user/handler.go") =
      "example.com/app/pkg/user" ∧
    ¬ deriveHandlerImportPath ("example.com/app") ("user") =
        deriveImportPath ("example.com/app") ("pkg/user/handler.go") ∧
    generateRouteImports ("example.com/app")
        (extractHandlerInfo
          [⟨"GetUser", "/users", "GET", "userHandler.GetUser", "user", ""⟩]) =
      ["\"github.com/gofiber/fiber/v2\"", "\"example.com/app/internal/user\""] := by
  decide

namespace Taskw

theorem flatMap_congr {α β : Type} {f g : α → List β} :
    ∀ l : List α, (∀ a ∈ l, f a = g a) → l.flatMap f = l.flatMap g := by
  intro l
  induction l with
  | nil => intro _; rfl
  | cons a t ih =>
    intro h
    rw [List.flatMap_cons, List.flatMap_cons, h a (List.mem_cons_self _ _),
      ih (fun x hx => h x (List.mem_cons_of_mem _ hx))]

theorem partition_bind_perm {α : Type} (key : α → String) :
    ∀ (pkgs : List String) (l : List α), pkgs.Nodup →
      (∀ x ∈ l, key x ∈ pkgs) →
      (pkgs.flatMap (fun p => l.filter (fun x => key x = p))).Perm l := by
  intro pkgs
  induction pkgs with
  | nil =>
    intro l _ hcov
    have hnil : l = [] := by
      cases l with
      | nil => rfl
      | cons a t => exact absurd (hcov a (List.mem_cons_self _ _)) (List.not_mem_nil _)
    simp [hnil]
  | cons p ps ih =>
    intro l hnd hcov
    rcases List.nodup_cons.mp hnd with ⟨hp, hnps⟩
    rw [List.flatMap_cons]
    have hbind : ps.flatMap (fun q => l.filter (fun x => key x = q)) =
        ps.flatMap (fun q =>
          (l.filter (fun x => ¬ key x = p)).filter (fun x => key x = q)) := by
      apply flatMap_congr
      intro q hq
      rw [List.filter_filter]
      apply List.filter_congr
      intro x _
      by_cases hxq : key x = q
      · have hqp : ¬ q = p := fun he => hp (he ▸ hq)
        have hxp : ¬ key x = p := fun he => hqp (hxq ▸ he)
        simp [hxq, hxp, hqp]
      · simp [hxq]
    rw [hbind]
    have hcov' : ∀ x ∈ l.filter (fun x => ¬ key x = p), key x ∈ ps := by
      intro x hx
      rcases List.mem_filter.mp hx with ⟨hxl, hxp⟩
      rcases List.mem_cons.mp (hcov x hxl) with h | h
      · exact absurd h (by simpa using hxp)
      · exact h
    have ihp := ih (l.filter (fun x => ¬ key x = p)) hnps hcov'
    have hsplit : (l.filter (fun x => key x = p) ++
        l.filter (fun x => ¬ key x = p)).Perm l := by
      have hcong : l.filter (fun x => ¬ key x = p) =
          l.filter (fun x => !(decide (key x = p))) := by
        apply List.filter_congr
        intro x _
        simp [decide_not]
      rw [hcong]
      exact List.filter_append_perm _ l
    exact (List.Perm.append_left _ ihp).trans hsplit

theorem flatten_perm (routes : List RouteMapping) :
    (flattenRoutesByPackage routes).Perm (organizeRoutesByPackage routes) := by
  unfold flattenRoutesByPackage
  apply partition_bind_perm (fun r : RouteMapping => r.Package)
  · unfold sortedPackageNames
    exact ((List.perm_insertionSort _ _).nodup_iff).mpr (List.nodup_dedup _)
  · intro x hx
    unfold sortedPackageNames
    apply (List.perm_insertionSort _ _).mem_iff.mpr
    exact List.mem_dedup.mpr (List.mem_map_of_mem _ hx)

set_option maxHeartbeats 1000000 in
set_option maxRecDepth 8000 in
theorem orderedRoutes_eq_of_perm {l₁ l₂ : List RouteMapping} (h : l₁.Perm l₂)
    (hdist : l₁.Pairwise (fun a b =>
      ¬ (a.HTTPMethod = b.HTTPMethod ∧
         convertPathForFiber a.Path = convertPathForFiber b.Path))) :
    orderedRoutes l₁ = orderedRoutes l₂ := by
  haveI : IsTotal RouteMapping routeLE := ⟨routeLE_total⟩
  haveI : IsTrans RouteMapping routeLE := ⟨routeLE_trans⟩
  have hsym : ∀ {x y : RouteMapping},
      ¬ (x.HTTPMethod = y.HTTPMethod ∧ x.Path = y.Path) →
      ¬ (y.HTTPMethod = x.HTTPMethod ∧ y.Path = x.Path) :=
    fun hx ⟨h1, h2⟩ => hx ⟨h1.symm, h2.symm⟩
  have hperm1 : (orderedRoutes l₁).Perm (organizeRoutesByPackage l₁) :=
    (List.perm_insertionSort _ _).trans (flatten_perm l₁)
  have hperm2 : (orderedRoutes l₂).Perm (organizeRoutesByPackage l₂) :=
    (List.perm_insertionSort _ _).trans (flatten_perm l₂)
  have horg : (organizeRoutesByPackage l₁).Perm (organizeRoutesByPackage l₂) :=
    h.map _
  have hp : (orderedRoutes l₁).Perm (orderedRoutes l₂) :=
    (hperm1.trans horg).trans hperm2.symm
  have hdist0 : (organizeRoutesByPackage l₁).Pairwise
      (fun a b => ¬ (a.HTTPMethod = b.HTTPMethod ∧ a.Path = b.Path)) := by
    unfold organizeRoutesByPackage
    rw [List.pairwise_map]
    exact hdist
  have hdist1 : (orderedRoutes l₁).Pairwise
      (fun a b => ¬ (a.HTTPMethod = b.HTTPMethod ∧ a.Path = b.Path)) :=
    (List.Perm.pairwise_iff hsym hperm1).mpr hdist0
  have hdist2 : (orderedRoutes l₂).Pairwise
      (fun a b => ¬ (a.HTTPMethod = b.HTTPMethod ∧ a.Path = b.Path)) :=
    (List.Perm.pairwise_iff hsym (hperm2.trans horg.symm)).mpr hdist0
  have hsort1 : (orderedRoutes l₁).Pairwise routeLE :=
    List.sorted_insertionSort routeLE _
  have hsort2 : (orderedRoutes l₂).Pairwise routeLE :=
    List.sorted_insertionSort routeLE _
  have strict1 : (orderedRoutes l₁).Pairwise routeKeyLt :=
    (hsort1.and hdist1).imp (fun hab => routeKeyLt_of_le_of_ne hab.1 hab.2)
  have strict2 : (orderedRoutes l₂).Pairwise routeKeyLt :=
    (hsort2.and hdist2).imp (fun hab => routeKeyLt_of_le_of_ne hab.1 hab.2)
  exact @eq_of_perm_of_pairwise_strict RouteMapping routeKeyLt
    (fun a b c h1 h2 => routeKeyLt_trans h1 h2) routeKeyLt_irrefl
    (orderedRoutes l₁) (orderedRoutes l₂) hp strict1 strict2

end Taskw

namespace Taskw

theorem extractHandlerInfoLoop_cons (acc : List HandlerInfo) (r : RouteMapping)
    (rest : List RouteMapping) :
    extractHandlerInfoLoop acc (r :: rest) =
      match handlerFieldName r with
      | some hs =>
        if acc.any (fun info => info.FieldName = hs) then
          extractHandlerInfoLoop acc rest
        else
          extractHandlerInfoLoop
            (acc ++ [⟨hs, hs, getHandlerTypeName r.Package, r.Package⟩]) rest
      | none => extractHandlerInfoLoop acc rest := by
  unfold handlerFieldName
  cases hsplit : splitOnChar '.' r.HandlerRef.data with
  | nil => simp [extractHandlerInfoLoop, hsplit]
  | cons h1 t1 =>
    cases t1 with
    | nil => simp [extractHandlerInfoLoop, hsplit]
    | cons h2 t2 =>
      cases t2 with
      | nil => simp [extractHandlerInfoLoop, hsplit]
      | cons h3 t3 => simp [extractHandlerInfoLoop, hsplit]

theorem mem_loop_of_mem_acc :
    ∀ (l : List RouteMapping) (acc : List HandlerInfo) (x : HandlerInfo),
      x ∈ acc → x ∈ extractHandlerInfoLoop acc l := by
  intro l
  induction l with
  | nil => intro acc x hx; exact hx
  | cons r rest ih =>
    intro acc x hx
    rw [extractHandlerInfoLoop_cons]
    cases hname : handlerFieldName r with
    | none => exact ih acc x hx
    | some hs =>
      dsimp only
      by_cases hany : acc.any (fun info => info.FieldName = hs) = true
      · rw [if_pos hany]
        exact ih acc x hx
      · rw [if_neg hany]
        exact ih _ x (List.mem_append_left _ hx)

theorem loop_mem_src :
    ∀ (l : List RouteMapping) (acc : List HandlerInfo) (x : HandlerInfo),
      x ∈ extractHandlerInfoLoop acc l →
      x ∈ acc ∨ ∃ r ∈ l, handlerFieldName r = some x.FieldName ∧
        x = ⟨x.FieldName, x.FieldName, getHandlerTypeName r.Package, r.Package⟩ := by
  intro l
  induction l with
  | nil => intro acc x hx; exact Or.inl hx
  | cons r rest ih =>
    intro acc x hx
    rw [extractHandlerInfoLoop_cons] at hx
    cases hname : handlerFieldName r with
    | none =>
      rw [hname] at hx
      dsimp only at hx
      rcases ih acc x hx with h | ⟨r', hr', hh⟩
      · exact Or.inl h
      · exact Or.inr ⟨r', List.mem_cons_of_mem _ hr', hh⟩
    | some hs =>
      rw [hname] at hx
      dsimp only at hx
      by_cases hany : acc.any (fun info => info.FieldName = hs) = true
      · rw [if_pos hany] at hx
        rcases ih acc x hx with h | ⟨r', hr', hh⟩
        · exact Or.inl h
        · exact Or.inr ⟨r', List.mem_cons_of_mem _ hr', hh⟩
      · rw [if_neg hany] at hx
        rcases ih _ x hx with h | ⟨r', hr', hh⟩
        · rcases List.mem_append.mp h with h | h
          · exact Or.inl h
          · have hx_eq : x = ⟨hs, hs, getHandlerTypeName r.Package, r.Package⟩ := by
              simpa using h
            right
            refine ⟨r, List.mem_cons_self _ _, ?_, ?_⟩
            · rw [hx_eq]
              exact hname
            · rw [hx_eq]
        · exact Or.inr ⟨r', List.mem_cons_of_mem _ hr', hh⟩

theorem loop_covers :
    ∀ (l : List RouteMapping) (acc : List HandlerInfo) (r : RouteMapping)
      (hs : String), r ∈ l → handlerFieldName r = some hs →
      ∃ x ∈ extractHandlerInfoLoop acc l, x.FieldName = hs := by
  intro l
  induction l with
  | nil => intro acc r hs hr; cases hr
  | cons r0 rest ih =>
    intro acc r hs hr hname
    rw [extractHandlerInfoLoop_cons]
    rcases List.mem_cons.mp hr with rfl | hr'
    · rw [hname]
      dsimp only
      by_cases hany : acc.any (fun info => info.FieldName = hs) = true
      · rw [if_pos hany]
        rcases List.any_eq_true.mp hany with ⟨x, hxacc, hxname⟩
        exact ⟨x, mem_loop_of_mem_acc _ _ _ hxacc, by simpa using hxname⟩
      · rw [if_neg hany]
        refine ⟨⟨hs, hs, getHandlerTypeName r.Package, r.Package⟩, ?_, rfl⟩
        exact mem_loop_of_mem_acc _ _ _
          (List.mem_append_right _ (List.mem_cons_self _ _))
    · cases hname0 : handlerFieldName r0 with
      | none => exact ih acc r hs hr' hname
      | some hs0 =>
        dsimp only
        by_cases hany : acc.any (fun info => info.FieldName = hs0) = true
        · rw [if_pos hany]
          exact ih acc r hs hr' hname
        · rw [if_neg hany]
          exact ih _ r hs hr' hname

theorem loop_names_nodup :
    ∀ (l : List RouteMapping) (acc : List HandlerInfo),
      (acc.map HandlerInfo.FieldName).Nodup →
      ((extractHandlerInfoLoop acc l).map HandlerInfo.FieldName).Nodup := by
  intro l
  induction l with
  | nil => intro acc h; exact h
  | cons r rest ih =>
    intro acc h
    rw [extractHandlerInfoLoop_cons]
    cases hname : handlerFieldName r with
    | none => exact ih acc h
    | some hs =>
      dsimp only
      by_cases hany : acc.any (fun info => info.FieldName = hs) = true
      · rw [if_pos hany]
        exact ih acc h
      · rw [if_neg hany]
        apply ih
        rw [List.map_append]
        have hnot : hs ∉ acc.map HandlerInfo.FieldName := by
          intro hmem
          rcases List.mem_map.mp hmem with ⟨x, hxacc, hxn⟩
          exact hany (List.any_eq_true.mpr ⟨x, hxacc, by simpa using hxn⟩)
        refine List.Nodup.append h (List.nodup_singleton _) ?_
        intro a ha hb
        have : a = hs := by simpa using hb
        exact hnot (this ▸ ha)

theorem extractHandlerInfoLoop_perm {l₁ l₂ : List RouteMapping} (h : l₁.Perm l₂)
    (hcons : ∀ a ∈ l₁, ∀ b ∈ l₁, handlerFieldName a = handlerFieldName b →
      ¬ handlerFieldName a = none → a.Package = b.Package) :
    (extractHandlerInfoLoop [] l₁).Perm (extractHandlerInfoLoop [] l₂) := by
  have hnd1 : ((extractHandlerInfoLoop [] l₁).map HandlerInfo.FieldName).Nodup :=
    loop_names_nodup l₁ [] (by simp)
  have hnd2 : ((extractHandlerInfoLoop [] l₂).map HandlerInfo.FieldName).Nodup :=
    loop_names_nodup l₂ [] (by simp)
  have hstep : ∀ {la lb : List RouteMapping}, la.Perm lb →
      (∀ a ∈ la, ∀ b ∈ la, handlerFieldName a = handlerFieldName b →
        ¬ handlerFieldName a = none → a.Package = b.Package) →
      ∀ x, x ∈ extractHandlerInfoLoop [] la → x ∈ extractHandlerInfoLoop [] lb := by
    intro la lb hab hconsa x hx
    rcases loop_mem_src la [] x hx with h0 | ⟨r, hr, hname, hxr⟩
    · cases h0
    · have hrb : r ∈ lb := hab.subset hr
      rcases loop_covers lb [] r x.FieldName hrb hname with ⟨y, hy, hyname⟩
      rcases loop_mem_src lb [] y hy with h0 | ⟨r', hr', hname', hyr⟩
      · cases h0
      · have hr'a : r' ∈ la := hab.symm.subset hr'
        have hnn : handlerFieldName r = handlerFieldName r' := by
          rw [hname, hname', hyname]
        have hpkg : r.Package = r'.Package :=
          hconsa r hr r' hr'a hnn (by rw [hname]; intro hc; cases hc)
        rw [hxr, hpkg, ← hyname, ← hyr]
        exact hy
  have hmem : ∀ x, x ∈ extractHandlerInfoLoop [] l₁ ↔ x ∈ extractHandlerInfoLoop [] l₂ := by
    intro x
    constructor
    · exact hstep h hcons x
    · apply hstep h.symm
      intro a ha b hb
      exact hcons a (h.symm.subset ha) b (h.symm.subset hb)
  exact (List.perm_ext_iff_of_nodup (List.Nodup.of_map _ hnd1)
    (List.Nodup.of_map _ hnd2)).mpr hmem

end Taskw

namespace Taskw

theorem strLt_strict_trans :
    ∀ a b c : String, strLtB a b = true → strLtB b c = true → strLtB a c = true :=
  fun _ _ _ h1 h2 => strLtB_trans h1 h2

theorem strLt_strict_irrefl : ∀ a : String, ¬ strLtB a a = true := by
  intro a h
  rw [strLtB_irrefl] at h
  cases h

theorem sorted_by_key_eq {α : Type} (key : α → String) {l₁ l₂ : List α}
    (h : l₁.Perm l₂) (hnd : (l₁.map key).Nodup) :
    List.insertionSort (keyLE key) l₁ = List.insertionSort (keyLE key) l₂ := by
  haveI : IsTotal α (keyLE key) := ⟨keyLE_total key⟩
  haveI : IsTrans α (keyLE key) := ⟨keyLE_trans key⟩
  have hp : (List.insertionSort (keyLE key) l₁).Perm
      (List.insertionSort (keyLE key) l₂) :=
    ((List.perm_insertionSort _ _).trans h).trans (List.perm_insertionSort _ _).symm
  have h0 : l₁.Pairwise (fun a b => ¬ key a = key b) := List.pairwise_map.mp hnd
  have hsymne : ∀ {x y : α}, ¬ key x = key y → ¬ key y = key x :=
    fun hx he => hx he.symm
  have hne1 : (List.insertionSort (keyLE key) l₁).Pairwise
      (fun a b => ¬ key a = key b) :=
    (List.Perm.pairwise_iff hsymne (List.perm_insertionSort _ _)).mpr h0
  have hne2 : (List.insertionSort (keyLE key) l₂).Pairwise
      (fun a b => ¬ key a = key b) :=
    (List.Perm.pairwise_iff hsymne
      ((List.perm_insertionSort _ _).trans h.symm)).mpr h0
  have hs1 : (List.insertionSort (keyLE key) l₁).Pairwise (keyLE key) :=
    List.sorted_insertionSort (keyLE key) l₁
  have hs2 : (List.insertionSort (keyLE key) l₂).Pairwise (keyLE key) :=
    List.sorted_insertionSort (keyLE key) l₂
  have hstrict : ∀ {a b : α}, keyLE key a b ∧ ¬ key a = key b →
      strLtB (key a) (key b) = true := by
    rintro a b ⟨hle, hne⟩
    rcases strLtB_trichotomy (key a) (key b) with hlt | heq | hgt
    · exact hlt
    · exact absurd heq hne
    · rw [keyLE, hgt] at hle
      cases hle
  have strict1 := (hs1.and hne1).imp hstrict
  have strict2 := (hs2.and hne2).imp hstrict
  exact @eq_of_perm_of_pairwise_strict α (fun a b => strLtB (key a) (key b) = true)
    (fun a b c h1 h2 => strLtB_trans h1 h2)
    (fun a => strLt_strict_irrefl (key a)) _ _ hp strict1 strict2

theorem sorted_map_key_eq {α : Type} (key : α → String) {l₁ l₂ : List α}
    (h : l₁.Perm l₂) :
    (List.insertionSort (keyLE key) l₁).map key =
      (List.insertionSort (keyLE key) l₂).map key := by
  haveI : IsTotal α (keyLE key) := ⟨keyLE_total key⟩
  haveI : IsTrans α (keyLE key) := ⟨keyLE_trans key⟩
  have hp : ((List.insertionSort (keyLE key) l₁).map key).Perm
      ((List.insertionSort (keyLE key) l₂).map key) :=
    (((List.perm_insertionSort _ _).trans h).trans
      (List.perm_insertionSort _ _).symm).map key
  have hs1 : (List.insertionSort (keyLE key) l₁).Pairwise (keyLE key) :=
    List.sorted_insertionSort (keyLE key) l₁
  have hs2 : (List.insertionSort (keyLE key) l₂).Pairwise (keyLE key) :=
    List.sorted_insertionSort (keyLE key) l₂
  have hm1 : ((List.insertionSort (keyLE key) l₁).map key).Pairwise (keyLE id) :=
    List.pairwise_map.mpr hs1
  have hm2 : ((List.insertionSort (keyLE key) l₂).map key).Pairwise (keyLE id) :=
    List.pairwise_map.mpr hs2
  exact @List.eq_of_perm_of_sorted String (keyLE id)
    ⟨keyLE_antisymm_str⟩ _ _ hp hm1 hm2

theorem sortedDedup_eq {l₁ l₂ : List String} (h : l₁.Perm l₂) :
    List.insertionSort (keyLE id) l₁.dedup =
      List.insertionSort (keyLE id) l₂.dedup := by
  apply sorted_by_key_eq id h.dedup
  simpa using List.nodup_dedup l₁

theorem extractHandlerInfo_eq {l₁ l₂ : List RouteMapping} (h : l₁.Perm l₂)
    (hcons : ∀ a ∈ l₁, ∀ b ∈ l₁, handlerFieldName a = handlerFieldName b →
      ¬ handlerFieldName a = none → a.Package = b.Package) :
    extractHandlerInfo l₁ = extractHandlerInfo l₂ := by
  unfold extractHandlerInfo
  exact sorted_by_key_eq HandlerInfo.FieldName (extractHandlerInfoLoop_perm h hcons)
    (loop_names_nodup l₁ [] (by simp))

end Taskw

/-- C2 (amended): the generated texts are independent of the aggregation
order provided (a) no two routes share the same `(HTTPMethod, converted
Path)` pair — duplicate registrations are tie-broken by nothing and keep
arrival order — and (b) routes sharing a handler field name agree on the
package; the Dependency Generator's output is order-independent without
any proviso. -/
theorem c2_deterministic_output :
    ∀ (module outputDir : String) (r₁ r₂ : List RouteMapping)
      (p₁ p₂ : List ProviderFunction),
      r₁.Perm r₂ → p₁.Perm p₂ →
      r₁.Pairwise (fun a b =>
        ¬ (a.HTTPMethod = b.HTTPMethod ∧
           convertPathForFiber a.Path = convertPathForFiber b.Path)) →
      (∀ a ∈ r₁, ∀ b ∈ r₁, handlerFieldName a = handlerFieldName b →
        ¬ handlerFieldName a = none → a.Package = b.Package) →
      generateRouteFileContent module r₁ = generateRouteFileContent module r₂ ∧
      generateDependencyFileContent module outputDir p₁ =
        generateDependencyFileContent module outputDir p₂ := by
  intro module outputDir r₁ r₂ p₁ p₂ hr hp hdist hcons
  constructor
  · unfold generateRouteFileContent
    rw [extractHandlerInfo_eq hr hcons, orderedRoutes_eq_of_perm hr hdist]
  · simp only [generateDependencyFileContent]
    have hpkgs : List.insertionSort (keyLE id) ((p₁.map (fun pr => pr.Package)).dedup) =
        List.insertionSort (keyLE id) ((p₂.map (fun pr => pr.Package)).dedup) :=
      sortedDedup_eq (hp.map _)
    have himports : generateDepImports module outputDir p₁ =
        generateDepImports module outputDir p₂ := by
      simp only [generateDepImports]
      rw [sortedDedup_eq (hp.filterMap _)]
    have hrefs : ∀ pkg : String,
        (providerGroup p₁ pkg).map (fun pr =>
          getProviderRef (getOutputPackageName outputDir) pr.Package pr.FunctionName) =
        (providerGroup p₂ pkg).map (fun pr =>
          getProviderRef (getOutputPackageName outputDir) pr.Package pr.FunctionName) := by
      intro pkg
      have hmap : ∀ l : List ProviderFunction,
          (providerGroup l pkg).map (fun pr =>
            getProviderRef (getOutputPackageName outputDir) pr.Package pr.FunctionName) =
          ((providerGroup l pkg).map ProviderFunction.FunctionName).map
            (fun n => getProviderRef (getOutputPackageName outputDir) pkg n) := by
        intro l
        rw [List.map_map]
        apply List.map_congr_left
        intro pr hpr
        have hmem : pr ∈ l.filter (fun q => q.Package = pkg) :=
          (List.perm_insertionSort _ _).subset hpr
        have hpkg : pr.Package = pkg := by
          simpa using (List.mem_filter.mp hmem).2
        simp [Function.comp, hpkg]
      rw [hmap p₁, hmap p₂]
      have := sorted_map_key_eq ProviderFunction.FunctionName (hp.filter
        (fun q : ProviderFunction => decide (q.Package = pkg)))
      simp only [providerGroup]
      rw [this]
    rw [hpkgs, himports]
    have : (List.insertionSort (keyLE id) ((p₂.map (fun pr => pr.Package)).dedup)).flatMap
        (fun pkg => (providerGroup p₁ pkg).map (fun pr =>
          getProviderRef (getOutputPackageName outputDir) pr.Package pr.FunctionName)) =
      (List.insertionSort (keyLE id) ((p₂.map (fun pr => pr.Package)).dedup)).flatMap
        (fun pkg => (providerGroup p₂ pkg).map (fun pr =>
          getProviderRef (getOutputPackageName outputDir) pr.Package pr.FunctionName)) :=
      flatMap_congr _ (fun pkg _ => hrefs pkg)
    rw [this]

/-- C2 witness: for distinct routes and a provider set, two orderings give
identical texts. -/
theorem c2_deterministic_output_witness :
    generateRouteFileContent ("m")
        [⟨"A", "/a", "GET", "hA.A", "p", ""⟩, ⟨"B", "/b", "GET", "hB.B", "q", ""⟩] =
      generateRouteFileContent ("m")
        [⟨"B", "/b", "GET", "hB.B", "q", ""⟩, ⟨"A", "/a", "GET", "hA.A", "p", ""⟩] ∧
    generateDependencyFileContent ("m") ("./internal/api")
        [⟨"ProvideX", "user", "*X", [], "internal/user/x.go"⟩,
         ⟨"ProvideY", "order", "*Y", [], "internal/order/y.go"⟩] =
      generateDependencyFileContent ("m") ("./internal/api")
        [⟨"ProvideY", "order", "*Y", [], "internal/order/y.go"⟩,
         ⟨"ProvideX", "user", "*X", [], "internal/user/x.go"⟩] :=
  c2_deterministic_output ("m") ("./internal/api") _ _ _ _
    (by decide) (by decide) (by decide) (by decide)

set_option maxRecDepth 100000 in
set_option maxHeartbeats 1000000 in
/-- C2 counterexample: two routes that both register GET /x but reference
different handlers; the two input orders are permutations of each other
yet the Route Generator emits different texts (the tied routes keep
arrival order), so the output is not independent of aggregation order as
the claim states. -/
theorem c2_order_dependent_counterexample :
    ([⟨"A", "/x", "GET", "hA.A", "p", ""⟩, ⟨"B", "/x", "GET", "hB.B", "p", ""⟩] :
        List RouteMapping).Perm
      [⟨"B", "/x", "GET", "hB.B", "p", ""⟩, ⟨"A", "/x", "GET", "hA.A", "p", ""⟩] ∧
    ¬ generateRouteFileContent ("m")
        [⟨"A", "/x", "GET", "hA.A", "p", ""⟩, ⟨"B", "/x", "GET", "hB.B", "p", ""⟩] =
      generateRouteFileContent ("m")
        [⟨"B", "/x", "GET", "hB.B", "p", ""⟩, ⟨"A", "/x", "GET", "hA.A", "p", ""⟩] := by
  decide

set_option maxRecDepth 100000 in
set_option maxHeartbeats 1000000 in
/-- C8: scanning a file holding exactly one handler-shaped method (pointer
receiver ending in Handler, single *fiber.Ctx parameter, final error
return) documented with the line `// @Router /api/v1/widgets [post]`
yields exactly one HandlerFunction and exactly one RouteMapping, with
HTTPMethod upper-cased to POST and Path /api/v1/widgets. -/
theorem c8_router_annotation_extraction :
    (scanFile
        ⟨"widget",
         [.funcDecl ⟨"CreateWidget", some (.star (.ident "WidgetHandler")),
            ⟨[.star (.sel (.ident "fiber") "Ctx")], [.ident "error"]⟩,
            ["// @Router /api/v1/widgets [post]"]⟩]⟩
        "internal/widget/handler.go").Handlers =
      [⟨"CreateWidget", "widget", "", "WidgetHandler", "", "error",
        "internal/widget/handler.go", false⟩] ∧
    (scanFile
        ⟨"widget",
         [.funcDecl ⟨"CreateWidget", some (.star (.ident "WidgetHandler")),
            ⟨[.star (.sel (.ident "fiber") "Ctx")], [.ident "error"]⟩,
            ["// @Router /api/v1/widgets [post]"]⟩]⟩
        "internal/widget/handler.go").Routes =
      [⟨"CreateWidget", "/api/v1/widgets", "POST", "widgetHandler.CreateWidget",
        "widget", ""⟩] := by
  decide

theorem processFuncDecl_errors (fn : FuncDeclM) (pkg filePath : String)
    (res : ScanResult) :
    (processFuncDecl fn pkg filePath res).Errors = res.Errors := by
  cases hE : extractHandler fn pkg filePath with
  | none =>
    cases hP : extractProvider fn pkg filePath <;>
      simp [processFuncDecl, hE, hP]
  | some h =>
    cases hR : extractRoute fn h <;> cases hP : extractProvider fn pkg filePath <;>
      simp [processFuncDecl, hE, hR, hP]

theorem processTypeSpec_errors (ts : TypeSpecM) (pkg filePath : String)
    (res : ScanResult) :
    (processTypeSpec ts pkg filePath res).Errors = res.Errors := by
  unfold processTypeSpec
  cases ts.body with
  | interfaceT ms =>
    dsimp only
    split <;> rfl
  | structT =>
    dsimp only
    split <;> rfl
  | otherT => rfl

theorem scanFold_errors (pkg filePath : String) :
    ∀ (decls : List DeclM) (acc : ScanResult),
      (decls.foldl (fun res d =>
        match d with
        | .funcDecl fn => processFuncDecl fn pkg filePath res
        | .typeSpec ts => processTypeSpec ts pkg filePath res) acc).Errors =
      acc.Errors := by
  intro decls
  induction decls with
  | nil => intro acc; rfl
  | cons d t ih =>
    intro acc
    rw [List.foldl_cons]
    cases d with
    | funcDecl fn => rw [ih]; exact processFuncDecl_errors fn pkg filePath acc
    | typeSpec ts => rw [ih]; exact processTypeSpec_errors ts pkg filePath acc

theorem scanFile_errors (file : FileM) (filePath : String) :
    (scanFile file filePath).Errors = [] := by
  unfold scanFile associateInterfacesWithImplementations createInterfaceBasedHandlers
  dsimp only
  rw [scanFold_errors]

theorem scanFoldAux (parse : String → Option ScanResult) :
    ∀ (order : List String) (acc : ScanResult),
      order.foldl (fun acc filePath =>
        match parse filePath with
        | none => { acc with Errors := acc.Errors ++ [parseErrorFor filePath] }
        | some fileResult => mergeFileResult acc fileResult) acc =
      { acc with
        Handlers := acc.Handlers ++ order.flatMap (fileHandlers parse),
        Routes := acc.Routes ++ order.flatMap (fileRoutes parse),
        Providers := acc.Providers ++ order.flatMap (fileProviders parse),
        Errors := acc.Errors ++ order.flatMap (fileErrors parse) } := by
  intro order
  induction order with
  | nil => intro acc; simp
  | cons f t ih =>
    intro acc
    rw [List.foldl_cons]
    cases hp : parse f with
    | none =>
      rw [ih]
      simp [fileHandlers, fileRoutes, fileProviders, fileErrors, hp]
    | some r =>
      rw [ih]
      simp [fileHandlers, fileRoutes, fileProviders, fileErrors, mergeFileResult, hp]

theorem scanFilesParallel_eq (parse : String → Option ScanResult)
    (order : List String) :
    scanFilesParallel parse order =
      ⟨order.flatMap (fileHandlers parse), order.flatMap (fileRoutes parse),
       order.flatMap (fileProviders parse), [], [],
       order.flatMap (fileErrors parse)⟩ := by
  unfold scanFilesParallel
  rw [scanFoldAux]
  rfl

theorem sum_map_ite_count {α : Type} [DecidableEq α] (f : α) :
    ∀ l : List α, (l.map (fun g => if g = f then 1 else 0)).sum =
      l.countP (fun g => g = f) := by
  intro l
  induction l with
  | nil => rfl
  | cons a t ih =>
    rw [List.map_cons, List.sum_cons, List.countP_cons, ih]
    by_cases h : a = f
    · simp [h, Nat.add_comm]
    · simp [h]

theorem parseErrorFor_inj {f g : String} :
    parseErrorFor g = parseErrorFor f ↔ g = f := by
  constructor
  · intro h
    exact congrArg ScanError.FilePath h
  · intro h
    rw [h]

/-- C9: the parallel scan merges, over any interleaving `order` of the
candidate `files`, exactly one parse_error ScanError per failing file
(and nothing else in Errors), together with every handler, route and
provider extracted from each successfully parsed file — a parse failure
contributes empty collections and never removes another file's records. -/
theorem c9_failure_isolation (parseF : String → Option FileM)
    (files order : List String) (hperm : order.Perm files) :
    (∀ f ∈ files, parseF f = none →
      (scanFilesParallel (astParse parseF) order).Errors.countP
          (fun e => e = parseErrorFor f) =
        files.countP (fun g => g = f)) ∧
    (∀ e ∈ (scanFilesParallel (astParse parseF) order).Errors,
      e.Kind = "parse_error") ∧
    (scanFilesParallel (astParse parseF) order).Handlers.Perm
      (files.flatMap (fileHandlers (astParse parseF))) ∧
    (scanFilesParallel (astParse parseF) order).Routes.Perm
      (files.flatMap (fileRoutes (astParse parseF))) ∧
    (scanFilesParallel (astParse parseF) order).Providers.Perm
      (files.flatMap (fileProviders (astParse parseF))) := by
  rw [scanFilesParallel_eq]
  dsimp only
  refine ⟨?_, ?_, ?_, ?_, ?_⟩
  · intro f hf hnone
    rw [countP_flatMap]
    have hpt : ∀ g ∈ order,
        (fileErrors (astParse parseF) g).countP (fun e => e = parseErrorFor f) =
        if g = f then 1 else 0 := by
      intro g hg
      cases hpg : parseF g with
      | none =>
        have ha : astParse parseF g = none := by simp [astParse, hpg]
        by_cases hgf : g = f
        · subst hgf
          simp [fileErrors, ha, List.countP_cons]
        · have hne : ¬ parseErrorFor g = parseErrorFor f :=
            fun h => hgf (parseErrorFor_inj.mp h)
          simp [fileErrors, ha, List.countP_cons, hne, hgf]
      | some fm =>
        have ha : astParse parseF g = some (scanFile fm g) := by
          simp [astParse, hpg]
        have hgf : ¬ g = f := by
          intro h
          rw [h, hnone] at hpg
          cases hpg
        simp [fileErrors, ha, scanFile_errors, hgf]
    rw [List.map_congr_left hpt, sum_map_ite_count f, hperm.countP_eq]
  · intro e he
    rcases List.mem_flatMap.mp he with ⟨g, hg, hge⟩
    cases hpg : parseF g with
    | none =>
      have ha : astParse parseF g = none := by simp [astParse, hpg]
      simp only [fileErrors, ha, List.mem_singleton] at hge
      rw [hge]
      rfl
    | some fm =>
      have ha : astParse parseF g = some (scanFile fm g) := by
        simp [astParse, hpg]
      simp only [fileErrors, ha, scanFile_errors] at hge
      cases hge
  · exact hperm.flatMap_right _
  · exact hperm.flatMap_right _
  · exact hperm.flatMap_right _

set_option maxRecDepth 100000 in
/-- C9 witness: with `good.go` parsing to a one-handler file and `bad.go`
failing, an interleaved order yields exactly one parse error for `bad.go`
and the good file's handlers survive. -/
theorem c9_failure_isolation_witness :
    ((scanFilesParallel (astParse c9ParseF) ["bad.go", "good.go"]).Errors.countP
        (fun e => e = parseErrorFor "bad.go") =
      (["good.go", "bad.go"] : List String).countP (fun g => g = "bad.go")) ∧
    (scanFilesParallel (astParse c9ParseF) ["bad.go", "good.go"]).Handlers.Perm
      ((["good.go", "bad.go"] : List String).flatMap
        (fileHandlers (astParse c9ParseF))) :=
  ⟨(c9_failure_isolation c9ParseF ["good.go", "bad.go"] ["bad.go", "good.go"]
      (by decide)).1 "bad.go" (by decide) (by decide),
   (c9_failure_isolation c9ParseF ["good.go", "bad.go"] ["bad.go", "good.go"]
      (by decide)).2.2.1⟩

theorem firstSome_mem {α β : Type} (g : α → Option β) :
    ∀ (l : List α) (b : β), firstSome g l = some b → ∃ a ∈ l, g a = some b := by
  intro l
  induction l with
  | nil => intro b h; cases h
  | cons a t ih =>
    intro b h
    unfold firstSome at h
    cases hga : g a with
    | some c =>
      rw [hga] at h
      exact ⟨a, List.mem_cons_self a t, hga.trans h⟩
    | none =>
      rw [hga] at h
      rcases ih b h with ⟨x, hx, hgx⟩
      exact ⟨x, List.mem_cons_of_mem a hx, hgx⟩

theorem extractRouteLine_fields (fn : FuncDeclM) (handler : HandlerFunction)
    (raw : String) (r : RouteMapping)
    (h : extractRouteLine fn handler raw = some r) :
    r.MethodName = fn.name ∧ r.Package = handler.Package := by
  simp only [extractRouteLine] at h
  rcases firstSome_mem _ _ _ h with ⟨pat, hpat, hp⟩
  cases hm : pat (goTrimSpace (goTrimPrefix
      (goTrimSpace (goTrimPrefix raw.data ("//").data)) ("*").data)) with
  | none => rw [hm] at hp; cases hp
  | some p =>
    obtain ⟨m1, m2⟩ := p
    rw [hm] at hp
    dsimp only at hp
    by_cases hv : isValidHTTPMethod ⟨goToUpper (goTrimSpace m2)⟩ = true
    · rw [if_pos hv] at hp
      cases hp
      exact ⟨rfl, rfl⟩
    · rw [if_neg hv] at hp
      cases hp

theorem extractRoute_fields (fn : FuncDeclM) (handler : HandlerFunction)
    (r : RouteMapping) (h : extractRoute fn handler = some r) :
    r.MethodName = fn.name ∧ r.Package = handler.Package := by
  unfold extractRoute at h
  rcases firstSome_mem _ _ _ h with ⟨line, _, hl⟩
  exact extractRouteLine_fields fn handler line r hl

theorem extractHandler_fields (fn : FuncDeclM) (pkg filePath : String)
    (h : HandlerFunction) (hh : extractHandler fn pkg filePath = some h) :
    h.FunctionName = fn.name ∧ h.Package = pkg := by
  unfold extractHandler at hh
  cases hr : fn.recv with
  | none => rw [hr] at hh; cases hh
  | some recvType =>
    rw [hr] at hh
    dsimp only at hh
    by_cases h1 : getReceiverTypeName recvType = ""
    · rw [if_pos h1] at hh; cases hh
    · rw [if_neg h1] at hh
      by_cases h2 : ¬ (goHasSuffix (getReceiverTypeName recvType).data
          ("Handler").data = true ∨
          isHandlerImplementation (getReceiverTypeName recvType) = true)
      · rw [if_pos h2] at hh; cases hh
      · rw [if_neg h2] at hh
        by_cases h3 : ¬ hasFiberCtxParamF fn.ftype = true
        · rw [if_pos h3] at hh; cases hh
        · rw [if_neg h3] at hh
          by_cases h4 : ¬ returnsErrorF fn.ftype = true
          · rw [if_pos h4] at hh; cases hh
          · rw [if_neg h4] at hh
            cases hh
            exact ⟨rfl, rfl⟩

theorem processFuncDecl_covered (fn : FuncDeclM) (pkg filePath : String)
    (res : ScanResult) (hres : routesCovered res) :
    routesCovered (processFuncDecl fn pkg filePath res) := by
  simp only [routesCovered] at hres
  cases hE : extractHandler fn pkg filePath with
  | none =>
    cases hP : extractProvider fn pkg filePath with
    | none =>
      simp only [routesCovered, processFuncDecl, hE, hP]
      exact hres
    | some p =>
      simp only [routesCovered, processFuncDecl, hE, hP]
      exact hres
  | some h =>
    have hf := extractHandler_fields fn pkg filePath h hE
    cases hR : extractRoute fn h with
    | none =>
      cases hP : extractProvider fn pkg filePath with
      | none =>
        simp only [routesCovered, processFuncDecl, hE, hR, hP]
        intro r hr
        rcases hres r hr with ⟨h', hh', hp1, hp2⟩
        exact ⟨h', List.mem_append_left _ hh', hp1, hp2⟩
      | some p =>
        simp only [routesCovered, processFuncDecl, hE, hR, hP]
        intro r hr
        rcases hres r hr with ⟨h', hh', hp1, hp2⟩
        exact ⟨h', List.mem_append_left _ hh', hp1, hp2⟩
    | some route =>
      have hrf := extractRoute_fields fn h route hR
      have hkey : h.Package = route.Package ∧ h.FunctionName = route.MethodName :=
        ⟨hrf.2.symm, hf.1.trans hrf.1.symm⟩
      cases hP : extractProvider fn pkg filePath with
      | none =>
        simp only [routesCovered, processFuncDecl, hE, hR, hP]
        intro r hr
        rcases List.mem_append.mp hr with hr' | hr'
        · rcases hres r hr' with ⟨h', hh', hp1, hp2⟩
          exact ⟨h', List.mem_append_left _ hh', hp1, hp2⟩
        · have heq : r = route := by simpa using hr'
          subst heq
          exact ⟨h, List.mem_append_right _ (by simp), hkey.1, hkey.2⟩
      | some p =>
        simp only [routesCovered, processFuncDecl, hE, hR, hP]
        intro r hr
        rcases List.mem_append.mp hr with hr' | hr'
        · rcases hres r hr' with ⟨h', hh', hp1, hp2⟩
          exact ⟨h', List.mem_append_left _ hh', hp1, hp2⟩
        · have heq : r = route := by simpa using hr'
          subst heq
          exact ⟨h, List.mem_append_right _ (by simp), hkey.1, hkey.2⟩

theorem processTypeSpec_covered (ts : TypeSpecM) (pkg filePath : String)
    (res : ScanResult) (hres : routesCovered res) :
    routesCovered (processTypeSpec ts pkg filePath res) := by
  unfold processTypeSpec
  cases ts.body with
  | interfaceT ms =>
    dsimp only
    split
    · exact hres
    · exact hres
  | structT =>
    dsimp only
    split
    · exact hres
    · exact hres
  | otherT => exact hres

theorem scanFold_covered (pkg filePath : String) :
    ∀ (decls : List DeclM) (acc : ScanResult), routesCovered acc →
      routesCovered (decls.foldl (fun res d =>
        match d with
        | .funcDecl fn => processFuncDecl fn pkg filePath res
        | .typeSpec ts => processTypeSpec ts pkg filePath res) acc) := by
  intro decls
  induction decls with
  | nil => intro acc h; exact h
  | cons d t ih =>
    intro acc h
    rw [List.foldl_cons]
    cases d with
    | funcDecl fn => exact ih _ (processFuncDecl_covered fn pkg filePath acc h)
    | typeSpec ts => exact ih _ (processTypeSpec_covered ts pkg filePath acc h)

theorem associate_covered (res : ScanResult) (h : routesCovered res) :
    routesCovered (associateInterfacesWithImplementations res) := by
  unfold associateInterfacesWithImplementations createInterfaceBasedHandlers
  intro r hr
  rcases h r hr with ⟨h', hh', hp1, hp2⟩
  exact ⟨h', List.mem_append_left _ hh', hp1, hp2⟩

theorem scanFile_covered (file : FileM) (filePath : String) :
    routesCovered (scanFile file filePath) := by
  unfold scanFile
  refine associate_covered _ (scanFold_covered file.pkg filePath file.decls _ ?_)
  intro r hr
  exact absurd hr (List.not_mem_nil r)

/-- C10: in every ScanResult of `scanFile` — and in every merged result of
the parallel scan over such results — each RouteMapping is accompanied by
a HandlerFunction of the same result whose Package equals the route's
Package and whose FunctionName equals the route's MethodName: route
records only arise from functions already recognized as handlers, so
scanner output alone can never trigger route_without_handler. -/
theorem c10_route_implies_handler :
    (∀ (file : FileM) (filePath : String),
      ∀ r ∈ (scanFile file filePath).Routes,
        ∃ h ∈ (scanFile file filePath).Handlers,
          h.Package = r.Package ∧ h.FunctionName = r.MethodName) ∧
    (∀ (parseF : String → Option FileM) (order : List String),
      ∀ r ∈ (scanFilesParallel (astParse parseF) order).Routes,
        ∃ h ∈ (scanFilesParallel (astParse parseF) order).Handlers,
          h.Package = r.Package ∧ h.FunctionName = r.MethodName) := by
  constructor
  · intro file filePath
    exact scanFile_covered file filePath
  · intro parseF order r hr
    rw [scanFilesParallel_eq] at hr ⊢
    dsimp only at hr ⊢
    rcases List.mem_flatMap.mp hr with ⟨g, hg, hrg⟩
    cases hpg : parseF g with
    | none =>
      have ha : astParse parseF g = none := by simp [astParse, hpg]
      simp only [fileRoutes, ha] at hrg
      cases hrg
    | some fm =>
      have ha : astParse parseF g = some (scanFile fm g) := by
        simp [astParse, hpg]
      simp only [fileRoutes, ha] at hrg
      rcases scanFile_covered fm g r hrg with ⟨h, hh, hp1, hp2⟩
      refine ⟨h, ?_, hp1, hp2⟩
      refine List.mem_flatMap.mpr ⟨g, hg, ?_⟩
      simp only [fileHandlers, ha]
      exact hh
